import Mathlib

/-!
Shallow embedding of the webhook → order → position pipeline of
src/server/routes/webhook.js, and of the credential-store helpers of
src/server/utils/encryption.js, together with proofs of the spec's claims.

Conventions:
* JavaScript numbers are modelled as exact rationals (ℚ).
* Database tables are Lean lists of row structures; SQL INSERT appends,
  UPDATE maps, DELETE filters, and `db.getAsync` of a SELECT is `List.find?`.
* Exceptions are modelled by `Option`/explicit result branching.
-/

namespace AutoTrader

/-- Webhook request body `{symbol, action, quantity, orderType?, price?}`.
A missing JSON field is `none`. -/
structure Payload where
  symbol : Option String
  action : Option String
  quantity : Option ℚ
  orderType : Option String
  price : Option ℚ
deriving DecidableEq, Repr

/-- Row of the `webhook_logs` table (the stored `payload` column is kept as
the structured payload; `JSON.stringify` is injective on payloads). -/
structure WebhookLog where
  id : Nat
  user_id : String
  payload : Payload
  status : String
  error_message : Option String
deriving DecidableEq, Repr

/-- Row of the `orders` table. -/
structure Order where
  id : Nat
  user_id : String
  broker_order_id : Option String
  symbol : String
  quantity : ℚ
  order_type : String
  side : String
  price : Option ℚ
  executed_price : Option ℚ
  status : String
deriving DecidableEq, Repr

/-- Row of the `positions` table (columns the pipeline touches). -/
structure Position where
  id : Nat
  user_id : String
  symbol : String
  quantity : ℚ
  average_price : ℚ
deriving DecidableEq, Repr

/-- Row of the `broker_connections` table (columns the pipeline reads). -/
structure BrokerConnection where
  id : Nat
  user_id : String
  is_active : Bool
deriving DecidableEq, Repr

/-- The database state seen by the webhook route. -/
structure DBState where
  webhook_logs : List WebhookLog
  orders : List Order
  positions : List Position
  broker_connections : List BrokerConnection
  nextLogId : Nat
  nextOrderId : Nat
  nextPosId : Nat
deriving DecidableEq, Repr

/-- Modelled from the spec: the Broker Adapter call
`placeBrokerOrder(connection, {...})` (src/server/services/brokerService.js is
not part of the sources; §4.2 of the spec gives its contract) either returns
`{orderId, status, executedPrice}` or fails by raising an error carrying a
human-readable message. -/
inductive BrokerResult where
  | success (orderId : String) (status : String) (executedPrice : ℚ)
  | failure (message : String)
deriving DecidableEq, Repr

/-- HTTP response produced by the route. -/
inductive Response where
  | ok200 (orderId : Nat) (brokerOrderId : String)
  | err400 (msg : String)
  | err500 (msg : String)
deriving DecidableEq, Repr

/-- JavaScript truthiness of an optional string field
(`undefined`, `null` and `""` are falsy). -/
def truthyStr : Option String → Bool
  | none => false
  | some s => !(s == "")

/-- JavaScript truthiness of an optional numeric field
(`undefined`, `null` and `0` are falsy). -/
def truthyNum : Option ℚ → Bool
  | none => false
  | some q => decide (q ≠ 0)

/-- `x || d` on an optional string (JS `payload.orderType || 'MARKET'`). -/
def jsOrStr (o : Option String) (d : String) : String :=
  match o with
  | none => d
  | some s => if s == "" then d else s

/-- `x || null` on an optional number (JS `payload.price || null`). -/
def jsOrNull (o : Option ℚ) : Option ℚ :=
  match o with
  | none => none
  | some q => if q = 0 then none else some q

/-- `SELECT MAX(id) FROM webhook_logs WHERE user_id = ?`. -/
def userMaxLogId (logs : List WebhookLog) (u : String) : Option Nat :=
  ((logs.filter (fun l => l.user_id == u)).map (fun l => l.id)).max?

/-- `UPDATE webhook_logs SET status = ?, error_message = ?
WHERE user_id = ? AND id = (SELECT MAX(id) ...)`. -/
def markLatestLog (logs : List WebhookLog) (u st : String) (err : Option String) :
    List WebhookLog :=
  logs.map (fun l =>
    if l.user_id == u && some l.id == userMaxLogId logs u then
      { l with status := st, error_message := err }
    else l)

/-- `UPDATE webhook_logs SET status = ? WHERE user_id = ? AND id = (SELECT MAX(id) ...)`
(the SUCCESS update leaves `error_message` alone). -/
def markLatestLogStatus (logs : List WebhookLog) (u st : String) :
    List WebhookLog :=
  logs.map (fun l =>
    if l.user_id == u && some l.id == userMaxLogId logs u then
      { l with status := st }
    else l)

/-- The `updatePosition(userId, symbol, quantity, side, price)` helper of
webhook.js, as a function of the positions table and the next fresh row id.
Returns the new table and next id. -/
def updatePosition (positions : List Position) (nextPosId : Nat)
    (userId symbol : String) (quantity : ℚ) (side : String) (price : ℚ) :
    List Position × Nat :=
  match positions.find? (fun p => p.user_id == userId && p.symbol == symbol) with
  | some existingPosition =>
    let newQuantity : ℚ :=
      if side == "BUY" then existingPosition.quantity + quantity
      else existingPosition.quantity - quantity
    let newAveragePrice : ℚ :=
      if side == "BUY" then
        (existingPosition.average_price * existingPosition.quantity
          + price * quantity) / newQuantity
      else existingPosition.average_price
    if newQuantity = 0 then
      -- DELETE FROM positions WHERE id = ?
      (positions.filter (fun p => !(p.id == existingPosition.id)), nextPosId)
    else
      -- UPDATE positions SET quantity = ?, average_price = ? WHERE id = ?
      (positions.map (fun p =>
        if p.id == existingPosition.id then
          { p with quantity := newQuantity, average_price := newAveragePrice }
        else p), nextPosId)
  | none =>
    if side == "BUY" then
      -- INSERT INTO positions (user_id, symbol, quantity, average_price)
      (positions ++ [{ id := nextPosId, user_id := userId, symbol := symbol,
                       quantity := quantity, average_price := price }],
       nextPosId + 1)
    else
      (positions, nextPosId)

/-- The `router.post('/:userId')` handler of webhook.js.

`broker` is the outcome of the Broker Adapter call for this request, and
`posFault` injects a persistence failure inside `updatePosition`'s `try`
block (its `catch` only logs to the console, so a fault leaves the positions
table unchanged — every mutation there is the final awaited statement). -/
def handleWebhook (s : DBState) (userId : String) (payload : Payload)
    (broker : BrokerResult) (posFault : Bool) : DBState × Response :=
  -- INSERT INTO webhook_logs (user_id, payload, status) VALUES (?, ?, 'RECEIVED')
  let newLog : WebhookLog :=
    { id := s.nextLogId, user_id := userId, payload := payload,
      status := "RECEIVED", error_message := none }
  let s1 : DBState :=
    { s with webhook_logs := s.webhook_logs ++ [newLog],
             nextLogId := s.nextLogId + 1 }
  -- if (!payload.symbol || !payload.action || !payload.quantity)
  if !(truthyStr payload.symbol && truthyStr payload.action
        && truthyNum payload.quantity) then
    ({ s1 with webhook_logs :=
         markLatestLog s1.webhook_logs userId "ERROR" (some "Invalid payload format") },
     .err400 "Invalid payload format")
  else
    -- SELECT * FROM broker_connections WHERE user_id = ? AND is_active = 1 LIMIT 1
    match s1.broker_connections.find? (fun c => c.user_id == userId && c.is_active) with
    | none =>
      ({ s1 with webhook_logs :=
           markLatestLog s1.webhook_logs userId "ERROR" (some "No active broker connection") },
       .err400 "No active broker connection found")
    | some _brokerConnection =>
      let symbol := payload.symbol.getD ""
      let quantity := payload.quantity.getD 0
      let side := payload.action.getD ""
      -- INSERT INTO orders ... VALUES (..., 'PENDING')
      let newOrder : Order :=
        { id := s1.nextOrderId, user_id := userId, broker_order_id := none,
          symbol := symbol, quantity := quantity,
          order_type := jsOrStr payload.orderType "MARKET",
          side := side, price := jsOrNull payload.price,
          executed_price := none, status := "PENDING" }
      let s2 : DBState :=
        { s1 with orders := s1.orders ++ [newOrder],
                  nextOrderId := s1.nextOrderId + 1 }
      match broker with
      | .failure message =>
        -- UPDATE orders SET status = 'FAILED' WHERE id = ?
        let s3 : DBState :=
          { s2 with orders := s2.orders.map (fun o =>
              if o.id == newOrder.id then { o with status := "FAILED" } else o) }
        -- UPDATE webhook_logs SET status = 'ERROR', error_message = brokerError.message
        let s4 : DBState :=
          { s3 with webhook_logs :=
              markLatestLog s3.webhook_logs userId "ERROR" (some message) }
        -- throw brokerError → outer catch → 500
        (s4, .err500 "Failed to process webhook")
      | .success brokerOrderId status executedPrice =>
        -- UPDATE orders SET broker_order_id = ?, status = ?, executed_price = ? WHERE id = ?
        let s3 : DBState :=
          { s2 with orders := s2.orders.map (fun o =>
              if o.id == newOrder.id then
                { o with broker_order_id := some brokerOrderId, status := status,
                         executed_price := some executedPrice }
              else o) }
        -- if (brokerResponse.status === 'EXECUTED') await updatePosition(...)
        let s4 : DBState :=
          if status == "EXECUTED" then
            if posFault then s3
            else
              let r := updatePosition s3.positions s3.nextPosId userId symbol quantity side executedPrice
              { s3 with positions := r.1, nextPosId := r.2 }
          else s3
        -- UPDATE webhook_logs SET status = 'SUCCESS'
        let s5 : DBState :=
          { s4 with webhook_logs := markLatestLogStatus s4.webhook_logs userId "SUCCESS" }
        (s5, .ok200 newOrder.id brokerOrderId)

/-! ### List helper lemmas -/

/-- `find?` over a mapped list, when the map preserves the predicate. -/
theorem find?_map_of_pred_preserved {α : Type} (f : α → α) (p : α → Bool)
    (hp : ∀ x, p (f x) = p x) :
    ∀ l : List α, (l.map f).find? p = (l.find? p).map f := by
  intro l
  induction l with
  | nil => rfl
  | cons x xs ih =>
    by_cases hx : p x
    · simp [List.find?_cons, hp, hx]
    · simp only [Bool.not_eq_true] at hx
      simp [List.find?_cons, hp, hx, ih]

/-- `find?` on a filtered list is `none` when filtering removed every hit. -/
theorem find?_filter_none {α : Type} (q p : α → Bool) (l : List α)
    (h : ∀ x ∈ l, p x → ¬ q x) : (l.filter q).find? p = none := by
  rw [List.find?_eq_none]
  intro x hx
  rcases List.mem_filter.mp hx with ⟨hmem, hq⟩
  intro hp
  exact h x hmem hp hq

/-- Removing the hits of `q` from a list with exactly one hit drops the
length by one. -/
theorem length_filter_not_of_one_hit {α : Type} (q : α → Bool) (l : List α)
    (h : (l.filter q).length = 1) :
    (l.filter (fun x => !(q x))).length = l.length - 1 := by
  have : l.length = (l.filter q).length + (l.filter (fun x => !(q x))).length :=
    List.length_eq_length_filter_add q
  omega

/-! ### C1 – C3: position reconciliation -/

/-- C1: for an executed BUY fill on a symbol where the user already holds a
Position (positive holding, positive fill quantity), reconciliation keeps the
row count and the id counter, and the row for (user, symbol) now carries
quantity `old + qty` and the weighted average price
`(old_avg*old_qty + fill_price*qty) / (old_qty + qty)`. -/
theorem updatePosition_buy_existing (positions : List Position) (nextPosId : Nat)
    (u sym : String) (qty price : ℚ) (ep : Position)
    (hfind : positions.find? (fun p => p.user_id == u && p.symbol == sym) = some ep)
    (hq : 0 < qty) (hold : 0 < ep.quantity) :
    (updatePosition positions nextPosId u sym qty "BUY" price).1.find?
        (fun p => p.user_id == u && p.symbol == sym)
      = some { ep with
                quantity := ep.quantity + qty
                average_price := ((ep.average_price * ep.quantity + price * qty) /
                  (ep.quantity + qty)) }
    ∧ (updatePosition positions nextPosId u sym qty "BUY" price).1.length
        = positions.length
    ∧ (updatePosition positions nextPosId u sym qty "BUY" price).2 = nextPosId := by
  have hnz : ¬ (ep.quantity + qty = 0) := by intro h; linarith
  simp only [updatePosition, hfind]
  simp only [show (("BUY":String) == "BUY") = true from rfl, if_true, if_neg hnz]
  refine ⟨?_, by simp, by trivial⟩
  rw [find?_map_of_pred_preserved _ _ ?_ positions]
  · rw [hfind]
    simp
  · intro x
    by_cases hx : x.id == ep.id <;> simp [hx]

/-- C1 witness: starting from quantity 10 at average 100, a BUY fill of
quantity 10 at price 120 yields quantity 20 at average 110. -/
theorem updatePosition_buy_existing_witness :
    (updatePosition [⟨1, "u", "S", 10, 100⟩] 2 "u" "S" 10 "BUY" 120).1.find?
        (fun p => p.user_id == "u" && p.symbol == "S")
      = some ⟨1, "u", "S", 20, 110⟩
    ∧ (updatePosition [⟨1, "u", "S", 10, 100⟩] 2 "u" "S" 10 "BUY" 120).1.length = 1
    ∧ (updatePosition [⟨1, "u", "S", 10, 100⟩] 2 "u" "S" 10 "BUY" 120).2 = 2 := by
  obtain ⟨h1, h2, h3⟩ := updatePosition_buy_existing [⟨1, "u", "S", 10, 100⟩] 2 "u" "S"
    10 120 ⟨1, "u", "S", 10, 100⟩ rfl (by norm_num) (by norm_num)
  refine ⟨?_, h2, h3⟩
  rw [h1]
  norm_num [Position.mk.injEq]

/-- C2: for an executed SELL fill on a symbol where the user already holds a
Position, reconciliation sets the quantity to `old − qty` with the average
price untouched; and when the resulting quantity is exactly 0 the Position
row is deleted instead of updated. -/
theorem updatePosition_sell_existing (positions : List Position) (nextPosId : Nat)
    (u sym : String) (qty price : ℚ) (ep : Position)
    (hfind : positions.find? (fun p => p.user_id == u && p.symbol == sym) = some ep)
    (hkey : ∀ p ∈ positions, p.user_id = u → p.symbol = sym → p = ep)
    (hone : (positions.filter (fun p => p.id == ep.id)).length = 1) :
    (ep.quantity - qty ≠ 0 →
      (updatePosition positions nextPosId u sym qty "SELL" price).1.find?
          (fun p => p.user_id == u && p.symbol == sym)
        = some { ep with quantity := ep.quantity - qty }
      ∧ (updatePosition positions nextPosId u sym qty "SELL" price).1.length
          = positions.length
      ∧ (updatePosition positions nextPosId u sym qty "SELL" price).2 = nextPosId)
    ∧ (ep.quantity - qty = 0 →
      (updatePosition positions nextPosId u sym qty "SELL" price).1.find?
          (fun p => p.user_id == u && p.symbol == sym) = none
      ∧ (updatePosition positions nextPosId u sym qty "SELL" price).1.length
          = positions.length - 1
      ∧ (∀ p ∈ (updatePosition positions nextPosId u sym qty "SELL" price).1,
          p ∈ positions)
      ∧ (updatePosition positions nextPosId u sym qty "SELL" price).2 = nextPosId) := by
  have hside : (("SELL" : String) == "BUY") = false := rfl
  constructor
  · intro hnz
    simp only [updatePosition, hfind, hside, if_false, Bool.false_eq_true, if_neg hnz]
    refine ⟨?_, by simp, by trivial⟩
    rw [find?_map_of_pred_preserved _ _ ?_ positions]
    · rw [hfind]
      simp
    · intro x
      by_cases hx : x.id == ep.id <;> simp [hx]
  · intro hz
    simp only [updatePosition, hfind, hside, Bool.false_eq_true, if_false, if_pos hz]
    refine ⟨?_, ?_, ?_, by trivial⟩
    · apply find?_filter_none
      intro x hx hpx hidx
      simp only [Bool.and_eq_true, beq_iff_eq] at hpx
      have hxep : x = ep := hkey x hx hpx.1 hpx.2
      simp [hxep] at hidx
    · exact length_filter_not_of_one_hit _ _ hone
    · intro p hp
      exact List.mem_of_mem_filter hp

/-- C2 witness: a position of quantity 20 (average 100), SELL fill of 20:
the Position row is deleted; SELL of 5 leaves quantity 15 at the same
average price. -/
theorem updatePosition_sell_existing_witness :
    ((updatePosition [⟨1, "u", "S", 20, 100⟩] 2 "u" "S" 20 "SELL" 120).1.find?
        (fun p => p.user_id == "u" && p.symbol == "S") = none
      ∧ (updatePosition [⟨1, "u", "S", 20, 100⟩] 2 "u" "S" 20 "SELL" 120).1.length = 0)
    ∧ (updatePosition [⟨1, "u", "S", 20, 100⟩] 2 "u" "S" 5 "SELL" 120).1.find?
        (fun p => p.user_id == "u" && p.symbol == "S")
      = some ⟨1, "u", "S", 15, 100⟩ := by
  have hz := (updatePosition_sell_existing [⟨1, "u", "S", 20, 100⟩] 2 "u" "S" 20 120
    ⟨1, "u", "S", 20, 100⟩ rfl (fun p hp _ _ => by simpa using hp) rfl).2 (by norm_num)
  have hnz := (updatePosition_sell_existing [⟨1, "u", "S", 20, 100⟩] 2 "u" "S" 5 120
    ⟨1, "u", "S", 20, 100⟩ rfl (fun p hp _ _ => by simpa using hp) rfl).1 (by norm_num)
  refine ⟨⟨hz.1, by simpa using hz.2.1⟩, ?_⟩
  rw [hnz.1]
  norm_num [Position.mk.injEq]

/-- C3: an executed SELL fill with no existing Position for (user, symbol) is
a no-op on the positions table: no row is created, modified, or deleted, and
the id counter is unchanged. -/
theorem updatePosition_sell_no_position (positions : List Position) (nextPosId : Nat)
    (u sym : String) (qty price : ℚ)
    (hfind : positions.find? (fun p => p.user_id == u && p.symbol == sym) = none) :
    updatePosition positions nextPosId u sym qty "SELL" price
      = (positions, nextPosId) := by
  simp [updatePosition, hfind]

/-- C3 witness: a SELL fill against an empty positions table leaves it
empty. -/
theorem updatePosition_sell_no_position_witness :
    updatePosition [] 2 "u" "S" 5 "SELL" 120 = ([], 2) :=
  updatePosition_sell_no_position [] 2 "u" "S" 5 120 rfl

/-! ### Helper lemmas for the handler proofs -/

theorem foldl_max_lt (l : List Nat) (a m : Nat) (ha : a < m)
    (h : ∀ x ∈ l, x < m) : l.foldl max a < m := by
  induction l generalizing a with
  | nil => exact ha
  | cons x xs ih =>
    simp only [List.foldl_cons]
    exact ih (max a x) (max_lt ha (h x (by simp))) (fun y hy => h y (by simp [hy]))

theorem max?_append_big (l : List Nat) (m : Nat) (h : ∀ x ∈ l, x < m) :
    (l ++ [m]).max? = some m := by
  cases l with
  | nil => rfl
  | cons a as =>
    have hdef : ((a :: as) ++ [m]).max? = some ((as ++ [m]).foldl max a) := rfl
    rw [hdef, List.foldl_append]
    simp only [List.foldl_cons, List.foldl_nil]
    congr 1
    exact max_eq_right (le_of_lt (foldl_max_lt as a m (h a (by simp))
      (fun y hy => h y (by simp [hy]))))

/-- Appending a fresh log row (id above every existing id for any user) and
then running the `MAX(id)`-targeted error update rewrites exactly that row. -/
theorem markLatestLog_append (logs : List WebhookLog) (nl : WebhookLog)
    (u st : String) (err : Option String)
    (hu : nl.user_id = u) (hmax : ∀ l ∈ logs, l.id < nl.id) :
    markLatestLog (logs ++ [nl]) u st err
      = logs ++ [{ nl with status := st, error_message := err }] := by
  have hmaxid : userMaxLogId (logs ++ [nl]) u = some nl.id := by
    unfold userMaxLogId
    rw [List.filter_append, List.map_append]
    simp only [List.filter_cons, List.filter_nil, hu, beq_self_eq_true, if_true,
      List.map_cons, List.map_nil]
    exact max?_append_big _ _ (by
      intro x hx
      simp only [List.mem_map, List.mem_filter] at hx
      obtain ⟨l, ⟨hl, _⟩, rfl⟩ := hx
      exact hmax l hl)
  unfold markLatestLog
  rw [hmaxid, List.map_append]
  congr 1
  · have : ∀ l ∈ logs, (if l.user_id == u && some l.id == some nl.id then
        { l with status := st, error_message := err } else l) = l := by
      intro l hl
      have : ¬ (l.id = nl.id) := Nat.ne_of_lt (hmax l hl)
      simp [this]
    rw [List.map_congr_left this]; simp
  · simp [hu]

/-- Same statement for the SUCCESS update (status only). -/
theorem markLatestLogStatus_append (logs : List WebhookLog) (nl : WebhookLog)
    (u st : String)
    (hu : nl.user_id = u) (hmax : ∀ l ∈ logs, l.id < nl.id) :
    markLatestLogStatus (logs ++ [nl]) u st = logs ++ [{ nl with status := st }] := by
  have hmaxid : userMaxLogId (logs ++ [nl]) u = some nl.id := by
    unfold userMaxLogId
    rw [List.filter_append, List.map_append]
    simp only [List.filter_cons, List.filter_nil, hu, beq_self_eq_true, if_true,
      List.map_cons, List.map_nil]
    exact max?_append_big _ _ (by
      intro x hx
      simp only [List.mem_map, List.mem_filter] at hx
      obtain ⟨l, ⟨hl, _⟩, rfl⟩ := hx
      exact hmax l hl)
  unfold markLatestLogStatus
  rw [hmaxid, List.map_append]
  congr 1
  · have : ∀ l ∈ logs, (if l.user_id == u && some l.id == some nl.id then
        { l with status := st } else l) = l := by
      intro l hl
      have : ¬ (l.id = nl.id) := Nat.ne_of_lt (hmax l hl)
      simp [this]
    rw [List.map_congr_left this]; simp
  · simp [hu]

/-- The by-id UPDATE of a just-inserted order touches exactly that row. -/
theorem orders_map_update_append (l : List Order) (x : Order) (n : Nat)
    (f : Order → Order) (hx : x.id = n) (h : ∀ y ∈ l, y.id < n) :
    (l ++ [x]).map (fun o => if o.id == n then f o else o) = l ++ [f x] := by
  rw [List.map_append]
  congr 1
  · have : ∀ o ∈ l, (if o.id == n then f o else o) = o := by
      intro o ho
      have : ¬ (o.id = n) := Nat.ne_of_lt (h o ho)
      simp [this]
    rw [List.map_congr_left this]; simp
  · simp [hx]

/-! ### C5 and C9: payload validation -/

/-- C5: a webhook payload missing `symbol`, `action` or `quantity` is
rejected with a 400 "Invalid payload format" response, the WebhookLog row is
marked ERROR with that reason, and no Order row is created. -/
theorem handleWebhook_missing_field (s : DBState) (userId : String)
    (payload : Payload) (broker : BrokerResult) (posFault : Bool)
    (hmiss : payload.symbol = none ∨ payload.action = none ∨ payload.quantity = none)
    (hids : ∀ l ∈ s.webhook_logs, l.id < s.nextLogId) :
    (handleWebhook s userId payload broker posFault).2
        = .err400 "Invalid payload format"
    ∧ (handleWebhook s userId payload broker posFault).1.webhook_logs
        = s.webhook_logs ++ [{ id := s.nextLogId
                               user_id := userId
                               payload := payload
                               status := "ERROR"
                               error_message := some "Invalid payload format" }]
    ∧ (handleWebhook s userId payload broker posFault).1.orders = s.orders := by
  have hguard : (truthyStr payload.symbol && truthyStr payload.action
      && truthyNum payload.quantity) = false := by
    rcases hmiss with h | h | h <;> simp [h, truthyStr, truthyNum]
  simp only [handleWebhook, hguard, Bool.not_false, if_true]
  refine ⟨by trivial, ?_, by trivial⟩
  exact markLatestLog_append s.webhook_logs _ userId "ERROR"
    (some "Invalid payload format") rfl hids

/-- C5 witness: a payload with no `quantity` field is rejected, the log row
is ERROR, and the orders table stays empty. -/
theorem handleWebhook_missing_field_witness :
    (handleWebhook ⟨[], [], [], [⟨1, "7", true⟩], 1, 1, 1⟩ "7"
        ⟨some "RELIANCE", some "BUY", none, none, none⟩ (.failure "x") false).2
      = .err400 "Invalid payload format"
    ∧ (handleWebhook ⟨[], [], [], [⟨1, "7", true⟩], 1, 1, 1⟩ "7"
        ⟨some "RELIANCE", some "BUY", none, none, none⟩ (.failure "x") false).1.webhook_logs
      = [⟨1, "7", ⟨some "RELIANCE", some "BUY", none, none, none⟩, "ERROR",
          some "Invalid payload format"⟩]
    ∧ (handleWebhook ⟨[], [], [], [⟨1, "7", true⟩], 1, 1, 1⟩ "7"
        ⟨some "RELIANCE", some "BUY", none, none, none⟩ (.failure "x") false).1.orders
      = [] := by
  have h := handleWebhook_missing_field ⟨[], [], [], [⟨1, "7", true⟩], 1, 1, 1⟩ "7"
    ⟨some "RELIANCE", some "BUY", none, none, none⟩ (.failure "x") false
    (Or.inr (Or.inr rfl)) (by simp)
  exact ⟨h.1, by rw [h.2.1]; rfl, h.2.2⟩

/-- C9: a payload whose `quantity` is present but 0, or whose `symbol` or
`action` is the empty string, is rejected exactly like a missing-field
payload (the check tests JavaScript truthiness): 400 "Invalid payload
format", WebhookLog ERROR, no Order row. -/
theorem handleWebhook_falsy_field (s : DBState) (userId : String)
    (payload : Payload) (broker : BrokerResult) (posFault : Bool)
    (hfalsy : payload.symbol = some "" ∨ payload.action = some ""
      ∨ payload.quantity = some 0)
    (hids : ∀ l ∈ s.webhook_logs, l.id < s.nextLogId) :
    (handleWebhook s userId payload broker posFault).2
        = .err400 "Invalid payload format"
    ∧ (handleWebhook s userId payload broker posFault).1.webhook_logs
        = s.webhook_logs ++ [{ id := s.nextLogId
                               user_id := userId
                               payload := payload
                               status := "ERROR"
                               error_message := some "Invalid payload format" }]
    ∧ (handleWebhook s userId payload broker posFault).1.orders = s.orders := by
  have hguard : (truthyStr payload.symbol && truthyStr payload.action
      && truthyNum payload.quantity) = false := by
    rcases hfalsy with h | h | h <;> simp [h, truthyStr, truthyNum]
  simp only [handleWebhook, hguard, Bool.not_false, if_true]
  refine ⟨by trivial, ?_, by trivial⟩
  exact markLatestLog_append s.webhook_logs _ userId "ERROR"
    (some "Invalid payload format") rfl hids

/-- C9 witness: `quantity: 0` with all fields present is rejected like a
missing field, with no Order row. -/
theorem handleWebhook_falsy_field_witness :
    (handleWebhook ⟨[], [], [], [⟨1, "7", true⟩], 1, 1, 1⟩ "7"
        ⟨some "RELIANCE", some "BUY", some 0, none, none⟩ (.failure "x") false).2
      = .err400 "Invalid payload format"
    ∧ (handleWebhook ⟨[], [], [], [⟨1, "7", true⟩], 1, 1, 1⟩ "7"
        ⟨some "RELIANCE", some "BUY", some 0, none, none⟩ (.failure "x") false).1.webhook_logs
      = [⟨1, "7", ⟨some "RELIANCE", some "BUY", some 0, none, none⟩, "ERROR",
          some "Invalid payload format"⟩]
    ∧ (handleWebhook ⟨[], [], [], [⟨1, "7", true⟩], 1, 1, 1⟩ "7"
        ⟨some "RELIANCE", some "BUY", some 0, none, none⟩ (.failure "x") false).1.orders
      = [] := by
  have h := handleWebhook_falsy_field ⟨[], [], [], [⟨1, "7", true⟩], 1, 1, 1⟩ "7"
    ⟨some "RELIANCE", some "BUY", some 0, none, none⟩ (.failure "x") false
    (Or.inr (Or.inr rfl)) (by simp)
  exact ⟨h.1, by rw [h.2.1]; rfl, h.2.2⟩

/-! ### C6 and C10: broker failure and swallowed reconciliation failure -/

/-- C6: when the Broker Adapter call raises, the Order row persists with
status FAILED, the WebhookLog row is marked ERROR with the adapter's
message, a 500 is returned, and positions are untouched. -/
theorem handleWebhook_broker_failure (s : DBState) (userId : String)
    (payload : Payload) (message : String) (posFault : Bool) (bc : BrokerConnection)
    (hguard : (truthyStr payload.symbol && truthyStr payload.action
      && truthyNum payload.quantity) = true)
    (hc : s.broker_connections.find? (fun c => c.user_id == userId && c.is_active)
      = some bc)
    (hlog : ∀ l ∈ s.webhook_logs, l.id < s.nextLogId)
    (hord : ∀ o ∈ s.orders, o.id < s.nextOrderId) :
    (handleWebhook s userId payload (.failure message) posFault).2
        = .err500 "Failed to process webhook"
    ∧ (handleWebhook s userId payload (.failure message) posFault).1.orders
        = s.orders ++ [{ id := s.nextOrderId
                         user_id := userId
                         broker_order_id := none
                         symbol := payload.symbol.getD ""
                         quantity := payload.quantity.getD 0
                         order_type := jsOrStr payload.orderType "MARKET"
                         side := payload.action.getD ""
                         price := jsOrNull payload.price
                         executed_price := none
                         status := "FAILED" }]
    ∧ (handleWebhook s userId payload (.failure message) posFault).1.webhook_logs
        = s.webhook_logs ++ [{ id := s.nextLogId
                               user_id := userId
                               payload := payload
                               status := "ERROR"
                               error_message := some message }]
    ∧ (handleWebhook s userId payload (.failure message) posFault).1.positions
        = s.positions := by
  simp only [handleWebhook, hguard, Bool.not_true, Bool.false_eq_true, if_false, hc]
  refine ⟨by trivial, ?_, ?_, by trivial⟩
  · exact orders_map_update_append s.orders _ s.nextOrderId _ rfl hord
  · exact markLatestLog_append s.webhook_logs _ userId "ERROR" (some message) rfl hlog

/-- C6 witness: a failing adapter call on a valid payload leaves one FAILED
order, an ERROR log carrying the message, and a 500. -/
theorem handleWebhook_broker_failure_witness :
    (handleWebhook ⟨[], [], [], [⟨1, "7", true⟩], 1, 1, 1⟩ "7"
        ⟨some "RELIANCE", some "BUY", some 50, none, some 2450⟩ (.failure "boom") false).2
      = .err500 "Failed to process webhook"
    ∧ (handleWebhook ⟨[], [], [], [⟨1, "7", true⟩], 1, 1, 1⟩ "7"
        ⟨some "RELIANCE", some "BUY", some 50, none, some 2450⟩ (.failure "boom") false).1.orders
      = [⟨1, "7", none, "RELIANCE", 50, "MARKET", "BUY", some 2450, none, "FAILED"⟩]
    ∧ (handleWebhook ⟨[], [], [], [⟨1, "7", true⟩], 1, 1, 1⟩ "7"
        ⟨some "RELIANCE", some "BUY", some 50, none, some 2450⟩ (.failure "boom") false).1.webhook_logs
      = [⟨1, "7", ⟨some "RELIANCE", some "BUY", some 50, none, some 2450⟩, "ERROR",
          some "boom"⟩] := by
  have h := handleWebhook_broker_failure ⟨[], [], [], [⟨1, "7", true⟩], 1, 1, 1⟩ "7"
    ⟨some "RELIANCE", some "BUY", some 50, none, some 2450⟩ "boom" false ⟨1, "7", true⟩
    (by simp [truthyStr, truthyNum]) rfl (by simp) (by simp)
  refine ⟨h.1, ?_, by rw [h.2.2.1]; rfl⟩
  rw [h.2.1]
  norm_num [Order.mk.injEq, jsOrStr, jsOrNull]

/-- C10: if position reconciliation fails internally after an EXECUTED
broker response, the failure is swallowed inside `updatePosition`: the
caller still gets the 200 success response, the WebhookLog is still marked
SUCCESS, the Order keeps its EXECUTED status, and the positions table is
left as it was. -/
theorem handleWebhook_posFault_swallowed (s : DBState) (userId : String)
    (payload : Payload) (oid : String) (ep : ℚ) (bc : BrokerConnection)
    (hguard : (truthyStr payload.symbol && truthyStr payload.action
      && truthyNum payload.quantity) = true)
    (hc : s.broker_connections.find? (fun c => c.user_id == userId && c.is_active)
      = some bc)
    (hlog : ∀ l ∈ s.webhook_logs, l.id < s.nextLogId)
    (hord : ∀ o ∈ s.orders, o.id < s.nextOrderId) :
    (handleWebhook s userId payload (.success oid "EXECUTED" ep) true).2
        = .ok200 s.nextOrderId oid
    ∧ (handleWebhook s userId payload (.success oid "EXECUTED" ep) true).1.webhook_logs
        = s.webhook_logs ++ [{ id := s.nextLogId
                               user_id := userId
                               payload := payload
                               status := "SUCCESS"
                               error_message := none }]
    ∧ (handleWebhook s userId payload (.success oid "EXECUTED" ep) true).1.orders
        = s.orders ++ [{ id := s.nextOrderId
                         user_id := userId
                         broker_order_id := some oid
                         symbol := payload.symbol.getD ""
                         quantity := payload.quantity.getD 0
                         order_type := jsOrStr payload.orderType "MARKET"
                         side := payload.action.getD ""
                         price := jsOrNull payload.price
                         executed_price := some ep
                         status := "EXECUTED" }]
    ∧ (handleWebhook s userId payload (.success oid "EXECUTED" ep) true).1.positions
        = s.positions
    ∧ (handleWebhook s userId payload (.success oid "EXECUTED" ep) true).1.nextPosId
        = s.nextPosId := by
  simp only [handleWebhook, hguard, Bool.not_true, Bool.false_eq_true, if_false, hc,
    beq_self_eq_true, if_true]
  refine ⟨by trivial, ?_, ?_, by trivial, by trivial⟩
  · exact markLatestLogStatus_append s.webhook_logs _ userId "SUCCESS" rfl hlog
  · exact orders_map_update_append s.orders _ s.nextOrderId _ rfl hord

/-- C10 witness: with a fault injected into reconciliation, an EXECUTED
broker response still yields 200, a SUCCESS log, an EXECUTED order, and an
unchanged (empty) positions table. -/
theorem handleWebhook_posFault_swallowed_witness :
    (handleWebhook ⟨[], [], [], [⟨1, "7", true⟩], 1, 1, 1⟩ "7"
        ⟨some "RELIANCE", some "BUY", some 50, none, some 2450⟩
        (.success "BK1" "EXECUTED" 2455) true).2 = .ok200 1 "BK1"
    ∧ (handleWebhook ⟨[], [], [], [⟨1, "7", true⟩], 1, 1, 1⟩ "7"
        ⟨some "RELIANCE", some "BUY", some 50, none, some 2450⟩
        (.success "BK1" "EXECUTED" 2455) true).1.webhook_logs
      = [⟨1, "7", ⟨some "RELIANCE", some "BUY", some 50, none, some 2450⟩,
          "SUCCESS", none⟩]
    ∧ (handleWebhook ⟨[], [], [], [⟨1, "7", true⟩], 1, 1, 1⟩ "7"
        ⟨some "RELIANCE", some "BUY", some 50, none, some 2450⟩
        (.success "BK1" "EXECUTED" 2455) true).1.orders
      = [⟨1, "7", some "BK1", "RELIANCE", 50, "MARKET", "BUY", some 2450,
          some 2455, "EXECUTED"⟩]
    ∧ (handleWebhook ⟨[], [], [], [⟨1, "7", true⟩], 1, 1, 1⟩ "7"
        ⟨some "RELIANCE", some "BUY", some 50, none, some 2450⟩
        (.success "BK1" "EXECUTED" 2455) true).1.positions = [] := by
  have h := handleWebhook_posFault_swallowed ⟨[], [], [], [⟨1, "7", true⟩], 1, 1, 1⟩ "7"
    ⟨some "RELIANCE", some "BUY", some 50, none, some 2450⟩ "BK1" 2455 ⟨1, "7", true⟩
    (by simp [truthyStr, truthyNum]) rfl (by simp) (by simp)
  refine ⟨h.1, by rw [h.2.1]; rfl, ?_, h.2.2.2.1⟩
  rw [h.2.2.1]
  norm_num [Order.mk.injEq, jsOrStr, jsOrNull]

/-! ### C7: side-effect accounting -/

@[simp] theorem length_markLatestLog (logs : List WebhookLog) (u st : String)
    (err : Option String) : (markLatestLog logs u st err).length = logs.length := by
  simp [markLatestLog]

@[simp] theorem length_markLatestLogStatus (logs : List WebhookLog) (u st : String) :
    (markLatestLogStatus logs u st).length = logs.length := by
  simp [markLatestLogStatus]

/-- C7: every webhook call appends exactly one WebhookLog row; every call
that passes validation and connection resolution appends exactly one Order
row (and a failed validation leaves orders untouched); and the positions
table changes only when the broker returned status EXECUTED, in which case
the whole change is a single `updatePosition` application. -/
theorem handleWebhook_side_effects (s : DBState) (userId : String)
    (payload : Payload) (broker : BrokerResult) (posFault : Bool) :
    (handleWebhook s userId payload broker posFault).1.webhook_logs.length
        = s.webhook_logs.length + 1
    ∧ ((truthyStr payload.symbol && truthyStr payload.action
         && truthyNum payload.quantity) = true →
       (s.broker_connections.find? (fun c => c.user_id == userId && c.is_active)).isSome →
       (handleWebhook s userId payload broker posFault).1.orders.length
         = s.orders.length + 1)
    ∧ ((truthyStr payload.symbol && truthyStr payload.action
         && truthyNum payload.quantity) = false →
       (handleWebhook s userId payload broker posFault).1.orders = s.orders)
    ∧ ((handleWebhook s userId payload broker posFault).1.positions ≠ s.positions →
       ∃ oid ep, broker = .success oid "EXECUTED" ep
         ∧ (handleWebhook s userId payload broker posFault).1.positions
             = (updatePosition s.positions s.nextPosId userId (payload.symbol.getD "")
                 (payload.quantity.getD 0) (payload.action.getD "") ep).1) := by
  by_cases hg : (truthyStr payload.symbol && truthyStr payload.action
      && truthyNum payload.quantity) = true
  · cases hcf : s.broker_connections.find? (fun c => c.user_id == userId && c.is_active) with
    | none =>
      simp only [handleWebhook, hg, Bool.not_true, Bool.false_eq_true, if_false, hcf]
      refine ⟨by simp, fun _ hs => ?_, fun hf => ?_, fun hp => absurd rfl hp⟩
      · simp at hs
      · simp at hf
    | some bc =>
      cases broker with
      | failure message =>
        simp only [handleWebhook, hg, Bool.not_true, Bool.false_eq_true, if_false, hcf]
        refine ⟨by simp, fun _ _ => by simp, fun hf => ?_, fun hp => absurd rfl hp⟩
        simp at hf
      | success oid st ep =>
        by_cases hst : (st == "EXECUTED") = true
        · have hst' : st = "EXECUTED" := by simpa using hst
          subst hst'
          cases posFault with
          | true =>
            simp only [handleWebhook, hg, Bool.not_true, Bool.false_eq_true, if_false,
              hcf, hst, if_true]
            refine ⟨by simp, fun _ _ => by simp, fun hf => ?_, fun hp => absurd rfl hp⟩
            simp at hf
          | false =>
            simp only [handleWebhook, hg, Bool.not_true, Bool.false_eq_true, if_false,
              hcf, hst, if_true, Bool.false_eq_true]
            refine ⟨by simp, fun _ _ => by simp, fun hf => ?_, fun _ => ?_⟩
            · simp at hf
            · exact ⟨oid, ep, rfl, rfl⟩
        · have hstf : (st == "EXECUTED") = false := by simpa using hst
          simp only [handleWebhook, hg, Bool.not_true, Bool.false_eq_true, if_false,
            hcf, hstf]
          refine ⟨by simp, fun _ _ => by simp, fun hf => ?_, fun hp => absurd rfl hp⟩
          simp at hf
  · have hgf : (truthyStr payload.symbol && truthyStr payload.action
        && truthyNum payload.quantity) = false := by simpa using hg
    simp only [handleWebhook, hgf, Bool.not_false, if_true]
    exact ⟨by simp, fun ht _ => by simp at ht,
      fun _ => by trivial, fun hp => absurd rfl hp⟩

/-- C7 witness: on a concrete successful EXECUTED call, the log and order
tables each gain exactly one row, and the positions change is one
`updatePosition` application. -/
theorem handleWebhook_side_effects_witness :
    (handleWebhook ⟨[], [], [], [⟨1, "7", true⟩], 1, 1, 1⟩ "7"
        ⟨some "RELIANCE", some "BUY", some 50, none, some 2450⟩
        (.success "BK1" "EXECUTED" 2455) false).1.webhook_logs.length = 1
    ∧ (handleWebhook ⟨[], [], [], [⟨1, "7", true⟩], 1, 1, 1⟩ "7"
        ⟨some "RELIANCE", some "BUY", some 50, none, some 2450⟩
        (.success "BK1" "EXECUTED" 2455) false).1.orders.length = 1 := by
  have h := handleWebhook_side_effects ⟨[], [], [], [⟨1, "7", true⟩], 1, 1, 1⟩ "7"
    ⟨some "RELIANCE", some "BUY", some 50, none, some 2450⟩
    (.success "BK1" "EXECUTED" 2455) false
  exact ⟨h.1, h.2.1 (by simp [truthyStr, truthyNum]) (by simp)⟩

/-! ### C4: position quantity = signed sum of executed orders since opening

The executed orders of the orders table are abstracted to fills
`(side, quantity)`; `applyFillQ` is the quantity-level shadow of one
`updatePosition` call; the invariant ties the positions table to the fold of
the fills. -/

/-- The executed fills recorded in the orders table for one (user, symbol),
oldest first, as `(side, quantity)` pairs. -/
def execFills (orders : List Order) (u sym : String) : List (String × ℚ) :=
  (orders.filter (fun o => o.user_id == u && o.symbol == sym
    && o.status == "EXECUTED")).map (fun o => (o.side, o.quantity))

/-- Quantity-level effect of reconciling one executed fill, mirroring
`updatePosition`: BUY adds, anything else subtracts, a resulting quantity of
0 closes the position, and a non-BUY fill against no position is ignored. -/
def applyFillQ (cur : Option ℚ) (f : String × ℚ) : Option ℚ :=
  match cur with
  | some q =>
    let nq := if f.1 == "BUY" then q + f.2 else q - f.2
    if nq = 0 then none else some nq
  | none => if f.1 == "BUY" then some f.2 else none

/-- Fold of `applyFillQ` over a fill sequence. -/
def applyFillsQ (init : Option ℚ) (fs : List (String × ℚ)) : Option ℚ :=
  fs.foldl applyFillQ init

/-- Signed sum of a fill sequence (BUY positive, otherwise negative). -/
def signedSum (fs : List (String × ℚ)) : ℚ :=
  (fs.map (fun f => if f.1 == "BUY" then f.2 else -f.2)).sum

theorem applyFillsQ_append (init : Option ℚ) (fs : List (String × ℚ))
    (f : String × ℚ) :
    applyFillsQ init (fs ++ [f]) = applyFillQ (applyFillsQ init fs) f := by
  simp [applyFillsQ, List.foldl_append]

theorem signedSum_append (fs : List (String × ℚ)) (f : String × ℚ) :
    signedSum (fs ++ [f]) = signedSum fs + (if f.1 == "BUY" then f.2 else -f.2) := by
  simp [signedSum]

theorem execFills_append (l : List Order) (x : Order) (u sym : String) :
    execFills (l ++ [x]) u sym
      = execFills l u sym
        ++ (if x.user_id == u && x.symbol == sym && x.status == "EXECUTED" then
              [(x.side, x.quantity)] else []) := by
  by_cases hx : (x.user_id == u && x.symbol == sym && x.status == "EXECUTED") = true
  · simp [execFills, List.filter_append, hx]
  · simp only [Bool.not_eq_true] at hx
    simp [execFills, List.filter_append, hx]

theorem find?_append_left_none {α : Type} (l1 l2 : List α) (p : α → Bool)
    (h : l1.find? p = none) : (l1 ++ l2).find? p = l2.find? p := by
  induction l1 with
  | nil => rfl
  | cons x xs ih =>
    rw [List.find?_cons] at h
    cases hx : p x with
    | true => rw [hx] at h; exact absurd h (by simp)
    | false =>
      rw [hx] at h
      simpa [List.find?_cons, hx] using ih h

theorem find?_append_left_some {α : Type} (l1 l2 : List α) (p : α → Bool) (a : α)
    (h : l1.find? p = some a) : (l1 ++ l2).find? p = some a := by
  induction l1 with
  | nil => exact absurd h (by simp)
  | cons x xs ih =>
    rw [List.find?_cons] at h
    cases hx : p x with
    | true => rw [hx] at h; simpa [List.find?_cons, hx] using h
    | false =>
      rw [hx] at h
      simpa [List.find?_cons, hx] using ih h

/-- Filtering away only elements the predicate rejects does not change
`find?`. -/
theorem find?_filter_keep {α : Type} (l : List α) (q p : α → Bool)
    (h : ∀ x ∈ l, q x = false → p x = false) :
    (l.filter q).find? p = l.find? p := by
  induction l with
  | nil => rfl
  | cons x xs ih =>
    have ihx := ih (fun y hy => h y (by simp [hy]))
    cases hq : q x with
    | true =>
      rw [List.filter_cons, hq]
      simp only [if_true, List.find?_cons]
      cases hp : p x <;> simp [hp, ihx]
    | false =>
      have hpx := h x (by simp) hq
      rw [List.filter_cons, hq]
      simp only [Bool.false_eq_true, if_false, List.find?_cons, hpx, ihx]

/-- A member of a list whose key column is duplicate-free is the value
`find?` returns for its own key. -/
theorem find?_of_mem_nodup_keys (l : List Position) (x : Position)
    (hkey : (l.map (fun p => (p.user_id, p.symbol))).Nodup)
    (hx : x ∈ l) :
    l.find? (fun p => p.user_id == x.user_id && p.symbol == x.symbol) = some x := by
  induction l with
  | nil => exact absurd hx (by simp)
  | cons y ys ih =>
    rw [List.map_cons, List.nodup_cons] at hkey
    rcases List.mem_cons.mp hx with rfl | hmem
    · simp [List.find?_cons]
    · have hyx : (y.user_id == x.user_id && y.symbol == x.symbol) = false := by
        by_contra hcon
        simp only [Bool.not_eq_false, Bool.and_eq_true, beq_iff_eq] at hcon
        exact hkey.1 (by
          rw [List.mem_map]
          exact ⟨x, hmem, by simp [hcon.1, hcon.2]⟩)
      rw [List.find?_cons, hyx]
      exact ih hkey.2 hmem

/-- `updatePosition` changes the quantity seen through `find?` exactly as
`applyFillQ`, for the touched (user, symbol) key, and leaves every other key
alone. -/
theorem updatePosition_find? (positions : List Position) (nextPosId : Nat)
    (userId symbol : String) (qty : ℚ) (side : String) (price : ℚ)
    (hid : (positions.map (fun p => p.id)).Nodup)
    (hkey : (positions.map (fun p => (p.user_id, p.symbol))).Nodup)
    (u sym : String) :
    ((updatePosition positions nextPosId userId symbol qty side price).1.find?
        (fun p => p.user_id == u && p.symbol == sym)).map (fun p => p.quantity)
      = if userId = u ∧ symbol = sym then
          applyFillQ ((positions.find? (fun p => p.user_id == u && p.symbol == sym)).map
            (fun p => p.quantity)) (side, qty)
        else
          (positions.find? (fun p => p.user_id == u && p.symbol == sym)).map
            (fun p => p.quantity) := by
  have hidinj := List.inj_on_of_nodup_map hid
  have hkeyinj := List.inj_on_of_nodup_map hkey
  by_cases hmatch : userId = u ∧ symbol = sym
  · obtain ⟨rfl, rfl⟩ := hmatch
    rw [if_pos ⟨rfl, rfl⟩]
    cases hf : positions.find? (fun p => p.user_id == userId && p.symbol == symbol) with
    | none =>
      simp only [updatePosition, hf]
      by_cases hside : (side == "BUY") = true
      · simp only [hside, if_true]
        rw [find?_append_left_none _ _ _ hf]
        simp [applyFillQ, hside, List.find?_cons]
      · have hside' : (side == "BUY") = false := by simpa using hside
        simp [hside', hf, applyFillQ]
    | some ep0 =>
      have hmem0 : ep0 ∈ positions := List.mem_of_find?_eq_some hf
      have hpred0 := List.find?_some hf
      simp only [Bool.and_eq_true, beq_iff_eq] at hpred0
      have hep0 : ∀ x ∈ positions,
          (x.user_id == userId && x.symbol == symbol) = true → x = ep0 := by
        intro x hx hpx
        simp only [Bool.and_eq_true, beq_iff_eq] at hpx
        exact hkeyinj hx hmem0 (by simp [hpx.1, hpx.2, hpred0.1, hpred0.2])
      simp only [updatePosition, hf]
      by_cases hz : (if (side == "BUY") = true then ep0.quantity + qty
          else ep0.quantity - qty) = 0
      · rw [if_pos hz]
        rw [find?_filter_none _ _ positions (by
          intro x hx hpx
          have := hep0 x hx hpx
          simp [this])]
        have hz2 : (if side = "BUY" then ep0.quantity + qty
            else ep0.quantity - qty) = 0 := by simpa using hz
        simp [applyFillQ, hf, hz2]
      · rw [if_neg hz]
        rw [find?_map_of_pred_preserved _ _ (by
          intro x
          by_cases hx : (x.id == ep0.id) = true <;> simp [hx]) positions]
        rw [hf]
        have hz2 : ¬ (if side = "BUY" then ep0.quantity + qty
            else ep0.quantity - qty) = 0 := by simpa using hz
        simp [applyFillQ, hz2]
  · rw [if_neg hmatch]
    have hkeyne : ((userId == u) && (symbol == sym)) = false := by
      rcases not_and_or.mp hmatch with h | h <;> simp [h]
    cases hf : positions.find? (fun p => p.user_id == userId && p.symbol == symbol) with
    | none =>
      simp only [updatePosition, hf]
      by_cases hside : (side == "BUY") = true
      · simp only [hside, if_true]
        cases hfq : positions.find? (fun p => p.user_id == u && p.symbol == sym) with
        | none =>
          rw [find?_append_left_none _ _ _ hfq]
          simp [List.find?_cons, hkeyne]
        | some a =>
          rw [find?_append_left_some _ _ _ a hfq]
      · have hside' : (side == "BUY") = false := by simpa using hside
        simp [hside']
    | some ep0 =>
      have hmem0 : ep0 ∈ positions := List.mem_of_find?_eq_some hf
      have hpred0 := List.find?_some hf
      simp only [Bool.and_eq_true, beq_iff_eq] at hpred0
      have hpq0 : (ep0.user_id == u && ep0.symbol == sym) = false := by
        rw [hpred0.1, hpred0.2]; exact hkeyne
      simp only [updatePosition, hf]
      by_cases hz : (if (side == "BUY") = true then ep0.quantity + qty
          else ep0.quantity - qty) = 0
      · rw [if_pos hz]
        rw [find?_filter_keep positions _ _ (by
          intro x hx hqx
          simp only [Bool.not_eq_false'] at hqx
          have hx0 : x = ep0 := hidinj hx hmem0 (by simpa using hqx)
          rw [hx0]
          exact hpq0)]
      · rw [if_neg hz]
        rw [find?_map_of_pred_preserved _ _ (by
          intro x
          by_cases hx : (x.id == ep0.id) = true <;> simp [hx]) positions]
        cases hfq : positions.find? (fun p => p.user_id == u && p.symbol == sym) with
        | none => simp
        | some z =>
          have hmemz : z ∈ positions := List.mem_of_find?_eq_some hfq
          have hpz := List.find?_some hfq
          have hzne : z ≠ ep0 := by
            intro hcon
            rw [hcon, hpq0] at hpz
            exact absurd hpz (by simp)
          have hzid : (z.id == ep0.id) = false := by
            by_contra hcon
            simp only [Bool.not_eq_false'] at hcon
            exact hzne (hidinj hmemz hmem0 (by simpa using hcon))
          have hzidp : ¬ z.id = ep0.id := by simpa using hzid
          simp [hzid, hzidp]

/-- Mapping a function that preserves a projection keeps the projected list,
hence its `Nodup`. -/
theorem nodup_map_comp_of_proj_preserved {α β : Type} (l : List α) (g : α → α)
    (f : α → β) (h : ∀ x, f (g x) = f x) (hnd : (l.map f).Nodup) :
    ((l.map g).map f).Nodup := by
  rw [List.map_map]
  have e : List.map (f ∘ g) l = List.map f l := List.map_congr_left (fun a _ => h a)
  rw [e]
  exact hnd

/-- `updatePosition` preserves distinct row ids, distinct (user, symbol)
keys, and the id bound. -/
theorem updatePosition_wf (positions : List Position) (nextPosId : Nat)
    (userId symbol : String) (qty : ℚ) (side : String) (price : ℚ)
    (hid : (positions.map (fun p => p.id)).Nodup)
    (hkey : (positions.map (fun p => (p.user_id, p.symbol))).Nodup)
    (hids : ∀ p ∈ positions, p.id < nextPosId) :
    (((updatePosition positions nextPosId userId symbol qty side price).1.map
        (fun p => p.id)).Nodup)
    ∧ (((updatePosition positions nextPosId userId symbol qty side price).1.map
        (fun p => (p.user_id, p.symbol))).Nodup)
    ∧ (∀ p ∈ (updatePosition positions nextPosId userId symbol qty side price).1,
        p.id < (updatePosition positions nextPosId userId symbol qty side price).2) := by
  cases hf : positions.find? (fun p => p.user_id == userId && p.symbol == symbol) with
  | some ep0 =>
    simp only [updatePosition, hf]
    by_cases hz : (if (side == "BUY") = true then ep0.quantity + qty
        else ep0.quantity - qty) = 0
    · rw [if_pos hz]
      refine ⟨?_, ?_, ?_⟩
      · exact List.Nodup.sublist (List.Sublist.map _ (List.filter_sublist _)) hid
      · exact List.Nodup.sublist (List.Sublist.map _ (List.filter_sublist _)) hkey
      · intro p hp
        exact hids p (List.mem_of_mem_filter hp)
    · rw [if_neg hz]
      refine ⟨?_, ?_, ?_⟩
      · exact nodup_map_comp_of_proj_preserved positions _ _ (fun x => by
          by_cases hx : (x.id == ep0.id) = true <;> simp [hx]) hid
      · exact nodup_map_comp_of_proj_preserved positions _ _ (fun x => by
          by_cases hx : (x.id == ep0.id) = true <;> simp [hx]) hkey
      · intro p hp
        obtain ⟨p0, hp0, rfl⟩ := List.mem_map.mp hp
        by_cases hx : (p0.id == ep0.id) = true
        · simp only [hx, if_true]
          simpa using hids p0 hp0
        · simp only [hx, Bool.false_eq_true, if_false]
          exact hids p0 hp0
  | none =>
    simp only [updatePosition, hf]
    by_cases hside : (side == "BUY") = true
    · simp only [hside, if_true]
      refine ⟨?_, ?_, ?_⟩
      · rw [List.map_append, List.nodup_append]
        refine ⟨hid, by simp, ?_⟩
        intro x hx
        rw [List.mem_map] at hx
        obtain ⟨p, hp, rfl⟩ := hx
        simp only [List.map_cons, List.map_nil, List.mem_singleton]
        exact fun hcon => absurd (hcon ▸ hids p hp) (lt_irrefl _)
      · rw [List.map_append, List.nodup_append]
        refine ⟨hkey, by simp, ?_⟩
        intro x hx
        rw [List.mem_map] at hx
        obtain ⟨p, hp, rfl⟩ := hx
        have hnp := List.find?_eq_none.mp hf p hp
        simp only [Bool.and_eq_true, beq_iff_eq, not_and] at hnp
        simp only [List.map_cons, List.map_nil, List.mem_singleton, Prod.mk.injEq]
        intro hcon
        exact hnp hcon.1 hcon.2
      · intro p hp
        rcases List.mem_append.mp hp with hmem | hmem
        · exact Nat.lt_succ_of_lt (hids p hmem)
        · simp only [List.mem_singleton] at hmem
          rw [hmem]
          exact Nat.lt_succ_self _
    · have hside' : (side == "BUY") = false := by simpa using hside
      simp only [hside', Bool.false_eq_true, if_false]
      exact ⟨hid, hkey, hids⟩

theorem orderIds_append (l : List Order) (n : Nat) (x : Order)
    (h : ∀ o ∈ l, o.id < n) (hx : x.id = n) : ∀ o ∈ l ++ [x], o.id < n + 1 := by
  intro o ho
  rcases List.mem_append.mp ho with hm | hm
  · exact Nat.lt_succ_of_lt (h o hm)
  · simp only [List.mem_singleton] at hm
    rw [hm, hx]
    exact Nat.lt_succ_self _

/-- Data-integrity invariant of the order/position store: fresh-id counters
bound the stored ids, row ids and (user, symbol) keys are duplicate-free,
and the quantity of each key's position (seen through `find?`) is the fold
of the executed fills recorded in the orders table. -/
structure Inv (s : DBState) : Prop where
  orderIds : ∀ o ∈ s.orders, o.id < s.nextOrderId
  posIds : ∀ p ∈ s.positions, p.id < s.nextPosId
  idNodup : (s.positions.map (fun p => p.id)).Nodup
  keyNodup : (s.positions.map (fun p => (p.user_id, p.symbol))).Nodup
  posMatch : ∀ u sym,
    ((s.positions.find? (fun p => p.user_id == u && p.symbol == sym)).map
      (fun p => p.quantity)) = applyFillsQ none (execFills s.orders u sym)

/-- States reachable from an empty store (with any broker connections) by
webhook calls (fault-free). -/
inductive Reachable : DBState → Prop where
  | init (bcs : List BrokerConnection) : Reachable ⟨[], [], [], bcs, 1, 1, 1⟩
  | step (s : DBState) (userId : String) (payload : Payload) (broker : BrokerResult) :
      Reachable s → Reachable (handleWebhook s userId payload broker false).1

theorem Inv_init (bcs : List BrokerConnection) :
    Inv ⟨[], [], [], bcs, 1, 1, 1⟩ := by
  refine ⟨by simp, by simp, by simp, by simp, ?_⟩
  intro u sym
  simp [execFills, applyFillsQ]

/-- One webhook call preserves the invariant. -/
theorem Inv_step (s : DBState) (userId : String) (payload : Payload)
    (broker : BrokerResult) (hinv : Inv s) :
    Inv (handleWebhook s userId payload broker false).1 := by
  by_cases hg : (truthyStr payload.symbol && truthyStr payload.action
      && truthyNum payload.quantity) = true
  · cases hcf : s.broker_connections.find? (fun c => c.user_id == userId && c.is_active) with
    | none =>
      simp only [handleWebhook, hg, Bool.not_true, Bool.false_eq_true, if_false, hcf]
      exact ⟨hinv.orderIds, hinv.posIds, hinv.idNodup, hinv.keyNodup, hinv.posMatch⟩
    | some bc =>
      cases broker with
      | failure message =>
        simp only [handleWebhook, hg, Bool.not_true, Bool.false_eq_true, if_false, hcf]
        rw [orders_map_update_append s.orders _ s.nextOrderId _ rfl hinv.orderIds]
        refine ⟨?_, hinv.posIds, hinv.idNodup, hinv.keyNodup, ?_⟩
        · exact orderIds_append s.orders s.nextOrderId _ hinv.orderIds rfl
        · intro u sym
          rw [execFills_append]
          simp only [Bool.and_false, Bool.false_eq_true, if_false, List.append_nil,
            show (("FAILED" : String) == "EXECUTED") = false from rfl]
          exact hinv.posMatch u sym
      | success oid st ep =>
        by_cases hst : (st == "EXECUTED") = true
        · have hst' : st = "EXECUTED" := by simpa using hst
          subst hst'
          simp only [handleWebhook, hg, Bool.not_true, Bool.false_eq_true, if_false,
            hcf, hst, if_true]
          rw [orders_map_update_append s.orders _ s.nextOrderId _ rfl hinv.orderIds]
          obtain ⟨hwf1, hwf2, hwf3⟩ := updatePosition_wf s.positions s.nextPosId
            userId (payload.symbol.getD "") (payload.quantity.getD 0)
            (payload.action.getD "") ep hinv.idNodup hinv.keyNodup hinv.posIds
          refine ⟨?_, hwf3, hwf1, hwf2, ?_⟩
          · exact orderIds_append s.orders s.nextOrderId _ hinv.orderIds rfl
          · intro u sym
            rw [updatePosition_find? s.positions s.nextPosId userId
              (payload.symbol.getD "") (payload.quantity.getD 0)
              (payload.action.getD "") ep hinv.idNodup hinv.keyNodup u sym]
            rw [execFills_append]
            by_cases hm : userId = u ∧ (payload.symbol.getD "") = sym
            · rw [if_pos hm]
              simp only [hm.1, hm.2, beq_self_eq_true, Bool.and_true, Bool.true_and,
                show (("EXECUTED" : String) == "EXECUTED") = true from rfl, if_true]
              rw [applyFillsQ_append, hinv.posMatch u sym]
            · rw [if_neg hm]
              have hpredf : ((userId == u) && ((payload.symbol.getD "") == sym)
                  && (("EXECUTED" : String) == "EXECUTED")) = false := by
                rcases not_and_or.mp hm with h | h <;> simp [h]
              simp only [hpredf, Bool.false_eq_true, if_false, List.append_nil]
              exact hinv.posMatch u sym
        · have hstf : (st == "EXECUTED") = false := by simpa using hst
          simp only [handleWebhook, hg, Bool.not_true, Bool.false_eq_true, if_false,
            hcf, hstf]
          rw [orders_map_update_append s.orders _ s.nextOrderId _ rfl hinv.orderIds]
          refine ⟨?_, hinv.posIds, hinv.idNodup, hinv.keyNodup, ?_⟩
          · exact orderIds_append s.orders s.nextOrderId _ hinv.orderIds rfl
          · intro u sym
            rw [execFills_append]
            simp only [hstf, Bool.and_false, Bool.false_eq_true, if_false,
              List.append_nil]
            exact hinv.posMatch u sym
  · have hgf : (truthyStr payload.symbol && truthyStr payload.action
        && truthyNum payload.quantity) = false := by simpa using hg
    simp only [handleWebhook, hgf, Bool.not_false, if_true]
    exact ⟨hinv.orderIds, hinv.posIds, hinv.idNodup, hinv.keyNodup, hinv.posMatch⟩

/-- Every reachable state satisfies the invariant. -/
theorem Reachable.inv {s : DBState} (h : Reachable s) : Inv s := by
  induction h with
  | init bcs => exact Inv_init bcs
  | step s userId payload broker _ ih => exact Inv_step s userId payload broker ih

/-- A surviving fold value decomposes the fill history into a prefix after
which no position is open and a suffix during which the position stays open,
whose signed sum is the final quantity. -/
theorem applyFillsQ_decomp (fs : List (String × ℚ)) (q : ℚ)
    (h : applyFillsQ none fs = some q) :
    ∃ a b, fs = a ++ b ∧ applyFillsQ none a = none
      ∧ (∀ b1 b2, b = b1 ++ b2 → b1 ≠ [] → applyFillsQ none (a ++ b1) ≠ none)
      ∧ q = signedSum b := by
  induction fs using List.reverseRecOn generalizing q with
  | nil => simp [applyFillsQ] at h
  | append_singleton fs f ih =>
    rw [applyFillsQ_append] at h
    cases h0 : applyFillsQ none fs with
    | none =>
      rw [h0] at h
      simp only [applyFillQ] at h
      have hb : (f.1 == "BUY") = true := by
        by_contra hc
        simp only [Bool.not_eq_true] at hc
        rw [hc] at h
        exact absurd h (by simp)
      rw [hb] at h
      simp only [if_true, Option.some.injEq] at h
      refine ⟨fs, [f], rfl, h0, ?_, ?_⟩
      · intro b1 b2 hsplit hne
        have hb1 : b1 = [f] := by
          cases b1 with
          | nil => exact absurd rfl hne
          | cons x xs =>
            rw [List.cons_append] at hsplit
            injection hsplit with h1 h2
            obtain ⟨h3, _⟩ := List.append_eq_nil.mp h2.symm
            rw [h1, h3]
        rw [hb1, applyFillsQ_append, h0]
        simp [applyFillQ, hb]
      · rw [← h]
        have hb2 : f.1 = "BUY" := by simpa using hb
        simp [signedSum, hb2]
    | some q0 =>
      rw [h0] at h
      obtain ⟨a, b, hfs, ha, hopen, hsum⟩ := ih q0 h0
      simp only [applyFillQ] at h
      have hnz : ¬ (if (f.1 == "BUY") = true then q0 + f.2 else q0 - f.2) = 0 := by
        intro hc
        rw [if_pos hc] at h
        exact absurd h (by simp)
      rw [if_neg hnz] at h
      simp only [Option.some.injEq] at h
      refine ⟨a, b ++ [f], by rw [hfs, List.append_assoc], ha, ?_, ?_⟩
      · intro b1 b2 hsplit hne
        cases b2 with
        | nil =>
          rw [List.append_nil] at hsplit
          rw [← hsplit, ← List.append_assoc, ← hfs, applyFillsQ_append, h0]
          simp only [applyFillQ]
          rw [if_neg hnz]
          simp
        | cons y ys =>
          rcases List.append_eq_append_iff.mp hsplit.symm with ⟨a', ha1, _⟩ | ⟨c', hc1, hc2⟩
          · exact hopen b1 a' ha1 hne
          · cases c' with
            | nil =>
              rw [List.append_nil] at hc1
              rw [hc1]
              exact hopen b [] (by simp) (hc1 ▸ hne)
            | cons z zs =>
              have hlen := congrArg List.length hc2
              simp only [List.length_cons, List.length_append, List.length_nil] at hlen
              omega
      · rw [signedSum_append, ← hsum, ← h]
        by_cases hb : (f.1 == "BUY") = true
        · simp [hb]
        · have hb' : (f.1 == "BUY") = false := by simpa using hb
          simp [hb', sub_eq_add_neg]

/-- C4: in every reachable state, each Position's quantity is the signed
sum (BUY positive, SELL negative) of the executed orders' quantities for
that user and symbol since the position was opened: the executed-fill
history splits into a prefix after which no position is open and a suffix
that opened it and kept it open, whose signed sum is the stored quantity.
Preservation by every webhook call is the `Reachable` induction
(`Inv_step`). -/
theorem reachable_position_signed_sum (s : DBState) (hs : Reachable s)
    (p : Position) (hp : p ∈ s.positions) :
    ∃ a b, execFills s.orders p.user_id p.symbol = a ++ b
      ∧ applyFillsQ none a = none
      ∧ (∀ b1 b2, b = b1 ++ b2 → b1 ≠ [] → applyFillsQ none (a ++ b1) ≠ none)
      ∧ p.quantity = signedSum b := by
  have hinv := hs.inv
  have hfind := find?_of_mem_nodup_keys s.positions p hinv.keyNodup hp
  have hq := hinv.posMatch p.user_id p.symbol
  rw [hfind] at hq
  simp only [Option.map_some'] at hq
  exact applyFillsQ_decomp _ _ hq.symm

/-- C4 witness: after one executed BUY of 50 from the empty store, the
single position's quantity 50 is the signed sum of the executed-fill
suffix. -/
theorem reachable_position_signed_sum_witness :
    ∃ a b,
      execFills (handleWebhook ⟨[], [], [], [⟨1, "7", true⟩], 1, 1, 1⟩ "7"
          ⟨some "RELIANCE", some "BUY", some 50, none, none⟩
          (.success "BK1" "EXECUTED" 2455) false).1.orders "7" "RELIANCE"
        = a ++ b
      ∧ applyFillsQ none a = none
      ∧ (∀ b1 b2, b = b1 ++ b2 → b1 ≠ [] → applyFillsQ none (a ++ b1) ≠ none)
      ∧ (50 : ℚ) = signedSum b := by
  have hreach : Reachable (handleWebhook ⟨[], [], [], [⟨1, "7", true⟩], 1, 1, 1⟩ "7"
      ⟨some "RELIANCE", some "BUY", some 50, none, none⟩
      (.success "BK1" "EXECUTED" 2455) false).1 :=
    Reachable.step _ _ _ _ (Reachable.init [⟨1, "7", true⟩])
  have hp : (⟨1, "7", "RELIANCE", 50, 2455⟩ : Position)
      ∈ (handleWebhook ⟨[], [], [], [⟨1, "7", true⟩], 1, 1, 1⟩ "7"
          ⟨some "RELIANCE", some "BUY", some 50, none, none⟩
          (.success "BK1" "EXECUTED" 2455) false).1.positions := by
    simp [handleWebhook, updatePosition, truthyStr, truthyNum]
  exact reachable_position_signed_sum _ hreach _ hp


/-! ### C8: the credential store (src/server/utils/encryption.js)

`encryptData`/`decryptData` call Node's `crypto.createCipher` /
`crypto.createDecipher` with `aes-256-cbc`: a password-based cipher that
derives key and IV from the password via `EVP_BytesToKey` (MD5, one
iteration, no salt) and then runs AES-256-CBC with PKCS7 padding.  The
random 16-byte IV that `encryptData` generates is only prepended (hex) to
the output; `createCipher`/`createDecipher` never use it.  Bytes are `Nat`
(< 256), JS strings are `List Char`, plaintext is its byte list, and the
thrown decryption errors are `Option.none`. -/


def zipXor (a b : List Nat) : List Nat := List.zipWith (fun x y => x ^^^ y) a b

/- hex -/
def hexDigitChars : List Char :=
  "0123456789abcdef".data

def byteToHex (b : Nat) : List Char :=
  [hexDigitChars.getD (b / 16) '0', hexDigitChars.getD (b % 16) '0']

def bytesToHex (l : List Nat) : List Char :=
  l.foldr (fun b acc => byteToHex b ++ acc) []

def hexVal (c : Char) : Option Nat :=
  if '0' ≤ c ∧ c ≤ '9' then some (c.toNat - 48)
  else if 'a' ≤ c ∧ c ≤ 'f' then some (c.toNat - 87)
  else if 'A' ≤ c ∧ c ≤ 'F' then some (c.toNat - 55)
  else none

def hexToBytes : List Char → List Nat
  | c1 :: c2 :: rest =>
    match hexVal c1, hexVal c2 with
    | some hi, some lo => (16 * hi + lo) :: hexToBytes rest
    | _, _ => []
  | _ => []

/- split on a character, as JS String.split with a one-char separator -/
def splitOnChar (sep : Char) : List Char → List (List Char)
  | [] => [[]]
  | c :: cs =>
    if c = sep then [] :: splitOnChar sep cs
    else
      match splitOnChar sep cs with
      | h :: t => (c :: h) :: t
      | [] => [[c]]

/- MD5 -/
def md5K : List Nat := [3614090360, 3905402710, 606105819, 3250441966, 4118548399, 1200080426, 2821735955, 4249261313, 1770035416, 2336552879, 4294925233, 2304563134, 1804603682, 4254626195, 2792965006, 1236535329, 4129170786, 3225465664, 643717713, 3921069994, 3593408605, 38016083, 3634488961, 3889429448, 568446438, 3275163606, 4107603335, 1163531501, 2850285829, 4243563512, 1735328473, 2368359562, 4294588738, 2272392833, 1839030562, 4259657740, 2763975236, 1272893353, 4139469664, 3200236656, 681279174, 3936430074, 3572445317, 76029189, 3654602809, 3873151461, 530742520, 3299628645, 4096336452, 1126891415, 2878612391, 4237533241, 1700485571, 2399980690, 4293915773, 2240044497, 1873313359, 4264355552, 2734768916, 1309151649, 4149444226, 3174756917, 718787259, 3951481745]
def md5S : List Nat := [7, 12, 17, 22, 7, 12, 17, 22, 7, 12, 17, 22, 7, 12, 17, 22, 5, 9, 14, 20, 5, 9, 14, 20, 5, 9, 14, 20, 5, 9, 14, 20, 4, 11, 16, 23, 4, 11, 16, 23, 4, 11, 16, 23, 4, 11, 16, 23, 6, 10, 15, 21, 6, 10, 15, 21, 6, 10, 15, 21, 6, 10, 15, 21]

def add32 (a b : Nat) : Nat := (a + b) % 4294967296
def not32 (x : Nat) : Nat := 4294967295 - x
def rotl32 (x s : Nat) : Nat := (x * 2 ^ s + x / 2 ^ (32 - s)) % 4294967296

def md5FG (i b c d : Nat) : Nat × Nat :=
  if i < 16 then ((b &&& c) ||| (not32 b &&& d), i)
  else if i < 32 then ((d &&& b) ||| (not32 d &&& c), (5 * i + 1) % 16)
  else if i < 48 then (b ^^^ c ^^^ d, (3 * i + 5) % 16)
  else (c ^^^ (b ||| not32 d), (7 * i) % 16)

def md5Word (chunk : List Nat) (g : Nat) : Nat :=
  chunk.getD (4 * g) 0 + 256 * chunk.getD (4 * g + 1) 0
    + 65536 * chunk.getD (4 * g + 2) 0 + 16777216 * chunk.getD (4 * g + 3) 0

def md5Steps : Nat → Nat → Nat → Nat → Nat → Nat → List Nat → Nat × Nat × Nat × Nat
  | 0, _, a, b, c, d, _ => (a, b, c, d)
  | left + 1, i, a, b, c, d, chunk =>
    let fg := md5FG i b c d
    let f := add32 (add32 (add32 fg.1 a) (md5K.getD i 0)) (md5Word chunk fg.2)
    md5Steps left (i + 1) d (add32 b (rotl32 f (md5S.getD i 0))) b c chunk

def md5Chunk (st : Nat × Nat × Nat × Nat) (chunk : List Nat) : Nat × Nat × Nat × Nat :=
  let r := md5Steps 64 0 st.1 st.2.1 st.2.2.1 st.2.2.2 chunk
  (add32 st.1 r.1, add32 st.2.1 r.2.1, add32 st.2.2.1 r.2.2.1, add32 st.2.2.2 r.2.2.2)

def md5Process : Nat → Nat × Nat × Nat × Nat → List Nat → Nat × Nat × Nat × Nat
  | 0, st, _ => st
  | _, st, [] => st
  | fuel + 1, st, msg => md5Process fuel (md5Chunk st (msg.take 64)) (msg.drop 64)

def word4LE (w : Nat) : List Nat :=
  [w % 256, w / 256 % 256, w / 65536 % 256, w / 16777216 % 256]

def md5 (msg : List Nat) : List Nat :=
  let padded := msg ++ 128 :: List.replicate ((120 - (msg.length + 1) % 64) % 64) 0
    ++ word4LE (8 * msg.length % 4294967296) ++ word4LE (8 * msg.length / 4294967296)
  let r := md5Process padded.length (1732584193, 4023233417, 2562383102, 271733878) padded
  word4LE r.1 ++ word4LE r.2.1 ++ word4LE r.2.2.1 ++ word4LE r.2.2.2

/- AES-256 -/
def SBOX : List Nat := [99, 124, 119, 123, 242, 107, 111, 197, 48, 1, 103, 43, 254, 215, 171, 118, 202, 130, 201, 125, 250, 89, 71, 240, 173, 212, 162, 175, 156, 164, 114, 192, 183, 253, 147, 38, 54, 63, 247, 204, 52, 165, 229, 241, 113, 216, 49, 21, 4, 199, 35, 195, 24, 150, 5, 154, 7, 18, 128, 226, 235, 39, 178, 117, 9, 131, 44, 26, 27, 110, 90, 160, 82, 59, 214, 179, 41, 227, 47, 132, 83, 209, 0, 237, 32, 252, 177, 91, 106, 203, 190, 57, 74, 76, 88, 207, 208, 239, 170, 251, 67, 77, 51, 133, 69, 249, 2, 127, 80, 60, 159, 168, 81, 163, 64, 143, 146, 157, 56, 245, 188, 182, 218, 33, 16, 255, 243, 210, 205, 12, 19, 236, 95, 151, 68, 23, 196, 167, 126, 61, 100, 93, 25, 115, 96, 129, 79, 220, 34, 42, 144, 136, 70, 238, 184, 20, 222, 94, 11, 219, 224, 50, 58, 10, 73, 6, 36, 92, 194, 211, 172, 98, 145, 149, 228, 121, 231, 200, 55, 109, 141, 213, 78, 169, 108, 86, 244, 234, 101, 122, 174, 8, 186, 120, 37, 46, 28, 166, 180, 198, 232, 221, 116, 31, 75, 189, 139, 138, 112, 62, 181, 102, 72, 3, 246, 14, 97, 53, 87, 185, 134, 193, 29, 158, 225, 248, 152, 17, 105, 217, 142, 148, 155, 30, 135, 233, 206, 85, 40, 223, 140, 161, 137, 13, 191, 230, 66, 104, 65, 153, 45, 15, 176, 84, 187, 22]
def INV_SBOX : List Nat := [82, 9, 106, 213, 48, 54, 165, 56, 191, 64, 163, 158, 129, 243, 215, 251, 124, 227, 57, 130, 155, 47, 255, 135, 52, 142, 67, 68, 196, 222, 233, 203, 84, 123, 148, 50, 166, 194, 35, 61, 238, 76, 149, 11, 66, 250, 195, 78, 8, 46, 161, 102, 40, 217, 36, 178, 118, 91, 162, 73, 109, 139, 209, 37, 114, 248, 246, 100, 134, 104, 152, 22, 212, 164, 92, 204, 93, 101, 182, 146, 108, 112, 72, 80, 253, 237, 185, 218, 94, 21, 70, 87, 167, 141, 157, 132, 144, 216, 171, 0, 140, 188, 211, 10, 247, 228, 88, 5, 184, 179, 69, 6, 208, 44, 30, 143, 202, 63, 15, 2, 193, 175, 189, 3, 1, 19, 138, 107, 58, 145, 17, 65, 79, 103, 220, 234, 151, 242, 207, 206, 240, 180, 230, 115, 150, 172, 116, 34, 231, 173, 53, 133, 226, 249, 55, 232, 28, 117, 223, 110, 71, 241, 26, 113, 29, 41, 197, 137, 111, 183, 98, 14, 170, 24, 190, 27, 252, 86, 62, 75, 198, 210, 121, 32, 154, 219, 192, 254, 120, 205, 90, 244, 31, 221, 168, 51, 136, 7, 199, 49, 177, 18, 16, 89, 39, 128, 236, 95, 96, 81, 127, 169, 25, 181, 74, 13, 45, 229, 122, 159, 147, 201, 156, 239, 160, 224, 59, 77, 174, 42, 245, 176, 200, 235, 187, 60, 131, 83, 153, 97, 23, 43, 4, 126, 186, 119, 214, 38, 225, 105, 20, 99, 85, 33, 12, 125]
def sbox (b : Nat) : Nat := SBOX.getD b 0
def invSbox (b : Nat) : Nat := INV_SBOX.getD b 0

def RCON : List Nat := [1, 2, 4, 8, 16, 32, 64]

def toWords : List Nat → List (List Nat)
  | a :: b :: c :: d :: rest => [a, b, c, d] :: toWords rest
  | _ => []

def rotWord : List Nat → List Nat
  | a :: rest => rest ++ [a]
  | [] => []

def subWord (w : List Nat) : List Nat := w.map sbox

def expandWords : Nat → List (List Nat) → List (List Nat)
  | 0, ws => ws
  | fuel + 1, ws =>
    let i := ws.length
    let prev := (ws.getLast?).getD []
    let temp :=
      if i % 8 == 0 then zipXor (subWord (rotWord prev)) [RCON.getD (i / 8 - 1) 0, 0, 0, 0]
      else if i % 8 == 4 then subWord prev
      else prev
    expandWords fuel (ws ++ [zipXor (ws.getD (i - 8) []) temp])

def groupRK : List (List Nat) → List (List Nat)
  | w0 :: w1 :: w2 :: w3 :: rest => (w0 ++ w1 ++ w2 ++ w3) :: groupRK rest
  | _ => []

def aesRoundKeysOf (key : List Nat) : List (List Nat) :=
  groupRK (expandWords 52 (toWords key))

def xtime (x : Nat) : Nat := if x < 128 then 2 * x else (2 * x - 256) ^^^ 27
def m2 (x : Nat) : Nat := xtime x
def m3 (x : Nat) : Nat := m2 x ^^^ x
def m9 (x : Nat) : Nat := m2 (m2 (m2 x)) ^^^ x
def m11 (x : Nat) : Nat := m2 (m2 (m2 x)) ^^^ m2 x ^^^ x
def m13 (x : Nat) : Nat := m2 (m2 (m2 x)) ^^^ m2 (m2 x) ^^^ x
def m14 (x : Nat) : Nat := m2 (m2 (m2 x)) ^^^ m2 (m2 x) ^^^ m2 x

def subBytes (s : List Nat) : List Nat := s.map sbox
def invSubBytes (s : List Nat) : List Nat := s.map invSbox

def shiftRows (s : List Nat) : List Nat :=
  [s.getD 0 0, s.getD 5 0, s.getD 10 0, s.getD 15 0,
   s.getD 4 0, s.getD 9 0, s.getD 14 0, s.getD 3 0,
   s.getD 8 0, s.getD 13 0, s.getD 2 0, s.getD 7 0,
   s.getD 12 0, s.getD 1 0, s.getD 6 0, s.getD 11 0]

def invShiftRows (s : List Nat) : List Nat :=
  [s.getD 0 0, s.getD 13 0, s.getD 10 0, s.getD 7 0,
   s.getD 4 0, s.getD 1 0, s.getD 14 0, s.getD 11 0,
   s.getD 8 0, s.getD 5 0, s.getD 2 0, s.getD 15 0,
   s.getD 12 0, s.getD 9 0, s.getD 6 0, s.getD 3 0]

def mixCol (a b c d : Nat) : List Nat :=
  [m2 a ^^^ m3 b ^^^ c ^^^ d,
   a ^^^ m2 b ^^^ m3 c ^^^ d,
   a ^^^ b ^^^ m2 c ^^^ m3 d,
   m3 a ^^^ b ^^^ c ^^^ m2 d]

def invMixCol (a b c d : Nat) : List Nat :=
  [m14 a ^^^ m11 b ^^^ m13 c ^^^ m9 d,
   m9 a ^^^ m14 b ^^^ m11 c ^^^ m13 d,
   m13 a ^^^ m9 b ^^^ m14 c ^^^ m11 d,
   m11 a ^^^ m13 b ^^^ m9 c ^^^ m14 d]

def mixColumns : List Nat → List Nat
  | [a0, a1, a2, a3, a4, a5, a6, a7, a8, a9, a10, a11, a12, a13, a14, a15] =>
    mixCol a0 a1 a2 a3 ++ mixCol a4 a5 a6 a7 ++ mixCol a8 a9 a10 a11
      ++ mixCol a12 a13 a14 a15
  | s => s

def invMixColumns : List Nat → List Nat
  | [a0, a1, a2, a3, a4, a5, a6, a7, a8, a9, a10, a11, a12, a13, a14, a15] =>
    invMixCol a0 a1 a2 a3 ++ invMixCol a4 a5 a6 a7 ++ invMixCol a8 a9 a10 a11
      ++ invMixCol a12 a13 a14 a15
  | s => s

def encRoundStep (st k : List Nat) : List Nat :=
  zipXor (mixColumns (shiftRows (subBytes st))) k
def encFinal (k st : List Nat) : List Nat := zipXor (shiftRows (subBytes st)) k
def invRoundStep (st k : List Nat) : List Nat :=
  invMixColumns (zipXor (invSubBytes (invShiftRows st)) k)
def invFinal (k st : List Nat) : List Nat := zipXor (invSubBytes (invShiftRows st)) k

def aesEncryptBlock (k0 : List Nat) (middle : List (List Nat)) (klast : List Nat)
    (b : List Nat) : List Nat :=
  encFinal klast (middle.foldl encRoundStep (zipXor b k0))

def aesDecryptBlock (k0 : List Nat) (middle : List (List Nat)) (klast : List Nat)
    (c : List Nat) : List Nat :=
  invFinal k0 (middle.reverse.foldl invRoundStep (zipXor c klast))

/- CBC, PKCS7, chunking -/
def cbcEncryptBlocks (k0 : List Nat) (middle : List (List Nat)) (klast : List Nat)
    (iv : List Nat) : List (List Nat) → List (List Nat)
  | [] => []
  | b :: rest =>
    let c := aesEncryptBlock k0 middle klast (zipXor b iv)
    c :: cbcEncryptBlocks k0 middle klast c rest

def cbcDecryptBlocks (k0 : List Nat) (middle : List (List Nat)) (klast : List Nat)
    (iv : List Nat) : List (List Nat) → List (List Nat)
  | [] => []
  | c :: rest =>
    zipXor (aesDecryptBlock k0 middle klast c) iv
      :: cbcDecryptBlocks k0 middle klast c rest

def pad16 (l : List Nat) : List Nat :=
  l ++ List.replicate (16 - l.length % 16) (16 - l.length % 16)

def unpad16 (l : List Nat) : Option (List Nat) :=
  match l.getLast? with
  | none => none
  | some n =>
    if n = 0 ∨ 16 < n ∨ l.length < n then none
    else if (l.drop (l.length - n)).all (fun b => b == n) then
      some (l.take (l.length - n))
    else none

def toBlocks16 : Nat → List Nat → List (List Nat)
  | 0, _ => []
  | fuel + 1, l => if l.isEmpty then [] else l.take 16 :: toBlocks16 fuel (l.drop 16)

/- the credential store -/
def ENCRYPTION_KEY : String :=
  "a1b2c3d4e5f6789012345678901234567890abcdef1234567890abcdef123456"

def getKey : List Nat :=
  if ENCRYPTION_KEY.length == 64 then hexToBytes ENCRYPTION_KEY.data
  else if ENCRYPTION_KEY.length == 32 then ENCRYPTION_KEY.data.map Char.toNat
  else ((ENCRYPTION_KEY.data
    ++ List.replicate (32 - ENCRYPTION_KEY.length) '0').take 32).map Char.toNat

def evpKeyIv (password : List Nat) : List Nat × List Nat :=
  let d1 := md5 password
  let d2 := md5 (d1 ++ password)
  let d3 := md5 (d2 ++ password)
  (d1 ++ d2, d3)

def derivedKey : List Nat := (evpKeyIv getKey).1
def derivedIV : List Nat := (evpKeyIv getKey).2
def aesRoundKeys : List (List Nat) := aesRoundKeysOf derivedKey
def rk0 : List Nat := aesRoundKeys.getD 0 []
def rkMid : List (List Nat) := (aesRoundKeys.drop 1).dropLast
def rkLast : List Nat := (aesRoundKeys.getLast?).getD []

def encryptData (iv : List Nat) (text : List Nat) : List Char :=
  bytesToHex iv ++ ':' :: bytesToHex
    ((cbcEncryptBlocks rk0 rkMid rkLast derivedIV
      (toBlocks16 (pad16 text).length (pad16 text))).flatten)

def decryptData (encryptedData : List Char) : Option (List Nat) :=
  let parts := splitOnChar ':' encryptedData
  if parts.length ≠ 2 then none
  else
    let ct := hexToBytes (parts.getD 1 [])
    if ct.length % 16 = 0 then
      unpad16 ((cbcDecryptBlocks rk0 rkMid rkLast derivedIV
        (toBlocks16 ct.length ct)).flatten)
    else none



/-! #### Byte-level facts (by `decide`) and well-formedness -/

/-- A 16-byte AES state/key block. -/
abbrev Wf16 (l : List Nat) : Prop := l.length = 16 ∧ ∀ x ∈ l, x < 256

set_option maxRecDepth 100000 in
set_option maxHeartbeats 2000000 in
theorem sbox_spec : ∀ x < 256, invSbox (sbox x) = x ∧ sbox x < 256 := by decide

set_option maxRecDepth 100000 in
theorem m2_lt : ∀ x < 256, m2 x < 256 := by decide
set_option maxRecDepth 100000 in
theorem m3_lt : ∀ x < 256, m3 x < 256 := by decide
set_option maxRecDepth 100000 in
theorem m9_lt : ∀ x < 256, m9 x < 256 := by decide
set_option maxRecDepth 100000 in
theorem m11_lt : ∀ x < 256, m11 x < 256 := by decide
set_option maxRecDepth 100000 in
theorem m13_lt : ∀ x < 256, m13 x < 256 := by decide
set_option maxRecDepth 100000 in
theorem m14_lt : ∀ x < 256, m14 x < 256 := by decide

theorem xor_lt_256 {x y : Nat} (hx : x < 256) (hy : y < 256) : x ^^^ y < 256 :=
  Nat.xor_lt_two_pow (n := 8) hx hy

theorem xor_left_comm (a b c : Nat) : a ^^^ (b ^^^ c) = b ^^^ (a ^^^ c) := by
  rw [← Nat.xor_assoc, Nat.xor_comm a b, Nat.xor_assoc]

theorem regroup4 (a b c d : Nat) :
    (a ^^^ b) ^^^ (c ^^^ d) = (a ^^^ c) ^^^ (b ^^^ d) := by
  simp [Nat.xor_assoc, Nat.xor_comm, xor_left_comm]

theorem regroup6 (a1 b1 a2 b2 a3 b3 : Nat) :
    ((a1 ^^^ b1) ^^^ (a2 ^^^ b2)) ^^^ (a3 ^^^ b3)
      = ((a1 ^^^ a2) ^^^ a3) ^^^ ((b1 ^^^ b2) ^^^ b3) := by
  simp [Nat.xor_assoc, Nat.xor_comm, xor_left_comm]

theorem two_mul_xor (x y : Nat) : 2 * (x ^^^ y) = 2 * x ^^^ 2 * y := by
  have h : ∀ z : Nat, 2 * z = z <<< 1 := fun z => by rw [Nat.shiftLeft_eq]; ring
  rw [h, h, h]
  apply Nat.eq_of_testBit_eq
  intro n
  simp [Nat.testBit_shiftLeft, Nat.testBit_xor, Bool.and_xor_distrib_left]

set_option maxRecDepth 10000 in
theorem xtime_eq : ∀ x < 256,
    xtime x = 2 * x ^^^ (if x.testBit 7 then 283 else 0) := by decide

theorem m2_xor (x y : Nat) (hx : x < 256) (hy : y < 256) :
    m2 (x ^^^ y) = m2 x ^^^ m2 y := by
  show xtime (x ^^^ y) = xtime x ^^^ xtime y
  rw [xtime_eq _ hx, xtime_eq _ hy, xtime_eq _ (xor_lt_256 hx hy),
    two_mul_xor, Nat.testBit_xor]
  cases hbx : x.testBit 7 <;> cases hby : y.testBit 7 <;>
    simp [Nat.xor_assoc, Nat.xor_comm, xor_left_comm]

theorem m2m2_xor (x y : Nat) (hx : x < 256) (hy : y < 256) :
    m2 (m2 (x ^^^ y)) = m2 (m2 x) ^^^ m2 (m2 y) := by
  rw [m2_xor x y hx hy, m2_xor _ _ (m2_lt x hx) (m2_lt y hy)]

theorem m2m2m2_xor (x y : Nat) (hx : x < 256) (hy : y < 256) :
    m2 (m2 (m2 (x ^^^ y))) = m2 (m2 (m2 x)) ^^^ m2 (m2 (m2 y)) := by
  rw [m2m2_xor x y hx hy, m2_xor _ _ (m2_lt _ (m2_lt x hx)) (m2_lt _ (m2_lt y hy))]

theorem m3_xor (x y : Nat) (hx : x < 256) (hy : y < 256) :
    m3 (x ^^^ y) = m3 x ^^^ m3 y := by
  show m2 (x ^^^ y) ^^^ (x ^^^ y) = (m2 x ^^^ x) ^^^ (m2 y ^^^ y)
  rw [m2_xor x y hx hy]
  exact regroup4 _ _ _ _

theorem m9_xor (x y : Nat) (hx : x < 256) (hy : y < 256) :
    m9 (x ^^^ y) = m9 x ^^^ m9 y := by
  show m2 (m2 (m2 (x ^^^ y))) ^^^ (x ^^^ y) = _
  rw [m2m2m2_xor x y hx hy]
  exact regroup4 _ _ _ _

theorem m11_xor (x y : Nat) (hx : x < 256) (hy : y < 256) :
    m11 (x ^^^ y) = m11 x ^^^ m11 y := by
  show m2 (m2 (m2 (x ^^^ y))) ^^^ m2 (x ^^^ y) ^^^ (x ^^^ y) = _
  rw [m2m2m2_xor x y hx hy, m2_xor x y hx hy]
  exact regroup6 _ _ _ _ _ _

theorem m13_xor (x y : Nat) (hx : x < 256) (hy : y < 256) :
    m13 (x ^^^ y) = m13 x ^^^ m13 y := by
  show m2 (m2 (m2 (x ^^^ y))) ^^^ m2 (m2 (x ^^^ y)) ^^^ (x ^^^ y) = _
  rw [m2m2m2_xor x y hx hy, m2m2_xor x y hx hy]
  exact regroup6 _ _ _ _ _ _

theorem m14_xor (x y : Nat) (hx : x < 256) (hy : y < 256) :
    m14 (x ^^^ y) = m14 x ^^^ m14 y := by
  show m2 (m2 (m2 (x ^^^ y))) ^^^ m2 (m2 (x ^^^ y)) ^^^ m2 (x ^^^ y) = _
  rw [m2m2m2_xor x y hx hy, m2m2_xor x y hx hy, m2_xor x y hx hy]
  exact regroup6 _ _ _ _ _ _

theorem getD_lt_256 (l : List Nat) (i : Nat) (h : ∀ x ∈ l, x < 256) :
    l.getD i 0 < 256 := by
  rw [List.getD_eq_getElem?_getD]
  cases hv : l[i]? with
  | none => simp
  | some a =>
    simp only [Option.getD_some]
    exact h a (List.getElem?_mem hv)

theorem zipXor_length (a b : List Nat) :
    (zipXor a b).length = min a.length b.length := by
  simp [zipXor]

theorem zipXor_lt (a : List Nat) (ha : ∀ x ∈ a, x < 256) :
    ∀ (b : List Nat), (∀ x ∈ b, x < 256) → ∀ x ∈ zipXor a b, x < 256 := by
  induction a with
  | nil => intro b _ x hx; simp [zipXor] at hx
  | cons a0 as ih =>
    intro b hb x hx
    cases b with
    | nil => simp [zipXor] at hx
    | cons b0 bs =>
      simp only [zipXor, List.zipWith_cons_cons, List.mem_cons] at hx
      rcases hx with rfl | hx
      · exact xor_lt_256 (ha a0 (by simp)) (hb b0 (by simp))
      · exact ih (fun y hy => ha y (by simp [hy])) bs
          (fun y hy => hb y (by simp [hy])) x hx

theorem zipXor_wf {a b : List Nat} (ha : Wf16 a) (hb : Wf16 b) :
    Wf16 (zipXor a b) :=
  ⟨by simp [zipXor, ha.1, hb.1], zipXor_lt a ha.2 b hb.2⟩

theorem zipXor_cancel (x k : List Nat) (h : x.length = k.length) :
    zipXor (zipXor x k) k = x := by
  induction x generalizing k with
  | nil => simp [zipXor]
  | cons a xs ih =>
    cases k with
    | nil => simp at h
    | cons b ks =>
      simp only [zipXor, List.zipWith_cons_cons]
      rw [Nat.xor_assoc, Nat.xor_self, Nat.xor_zero]
      congr 1
      exact ih ks (by simpa using h)

theorem list_eq_16 (l : List Nat) (h : l.length = 16) :
    ∃ a0 a1 a2 a3 a4 a5 a6 a7 a8 a9 a10 a11 a12 a13 a14 a15, l = [a0, a1, a2, a3, a4, a5, a6, a7, a8, a9, a10, a11, a12, a13, a14, a15] := by
  rcases l with _ | ⟨a0, l⟩
  · simp at h
  rcases l with _ | ⟨a1, l⟩
  · simp at h
  rcases l with _ | ⟨a2, l⟩
  · simp at h
  rcases l with _ | ⟨a3, l⟩
  · simp at h
  rcases l with _ | ⟨a4, l⟩
  · simp at h
  rcases l with _ | ⟨a5, l⟩
  · simp at h
  rcases l with _ | ⟨a6, l⟩
  · simp at h
  rcases l with _ | ⟨a7, l⟩
  · simp at h
  rcases l with _ | ⟨a8, l⟩
  · simp at h
  rcases l with _ | ⟨a9, l⟩
  · simp at h
  rcases l with _ | ⟨a10, l⟩
  · simp at h
  rcases l with _ | ⟨a11, l⟩
  · simp at h
  rcases l with _ | ⟨a12, l⟩
  · simp at h
  rcases l with _ | ⟨a13, l⟩
  · simp at h
  rcases l with _ | ⟨a14, l⟩
  · simp at h
  rcases l with _ | ⟨a15, l⟩
  · simp at h
  rcases l with _ | ⟨a16, l⟩
  · exact ⟨a0, a1, a2, a3, a4, a5, a6, a7, a8, a9, a10, a11, a12, a13, a14, a15, rfl⟩
  · simp at h


/-! #### MixColumns inversion -/

theorem xor_regroup16 (a1 b1 c1 d1 a2 b2 c2 d2 a3 b3 c3 d3 a4 b4 c4 d4 : Nat) :
    (a1 ^^^ b1 ^^^ c1 ^^^ d1) ^^^ (a2 ^^^ b2 ^^^ c2 ^^^ d2)
      ^^^ (a3 ^^^ b3 ^^^ c3 ^^^ d3) ^^^ (a4 ^^^ b4 ^^^ c4 ^^^ d4)
    = (a1 ^^^ a2 ^^^ a3 ^^^ a4) ^^^ (b1 ^^^ b2 ^^^ b3 ^^^ b4)
      ^^^ (c1 ^^^ c2 ^^^ c3 ^^^ c4) ^^^ (d1 ^^^ d2 ^^^ d3 ^^^ d4) := by
  simp [Nat.xor_assoc, Nat.xor_comm, xor_left_comm]

set_option maxRecDepth 10000 in
set_option maxHeartbeats 1000000 in
theorem mc00 : ∀ x < 256, m14 (m2 x) ^^^ m11 x ^^^ m13 x ^^^ m9 (m3 x) = x := by decide

set_option maxRecDepth 10000 in
set_option maxHeartbeats 1000000 in
theorem mc01 : ∀ x < 256, m14 (m3 x) ^^^ m11 (m2 x) ^^^ m13 x ^^^ m9 x = 0 := by decide

set_option maxRecDepth 10000 in
set_option maxHeartbeats 1000000 in
theorem mc02 : ∀ x < 256, m14 x ^^^ m11 (m3 x) ^^^ m13 (m2 x) ^^^ m9 x = 0 := by decide

set_option maxRecDepth 10000 in
set_option maxHeartbeats 1000000 in
theorem mc03 : ∀ x < 256, m14 x ^^^ m11 x ^^^ m13 (m3 x) ^^^ m9 (m2 x) = 0 := by decide

set_option maxRecDepth 10000 in
set_option maxHeartbeats 1000000 in
theorem mc10 : ∀ x < 256, m9 (m2 x) ^^^ m14 x ^^^ m11 x ^^^ m13 (m3 x) = 0 := by decide

set_option maxRecDepth 10000 in
set_option maxHeartbeats 1000000 in
theorem mc11 : ∀ x < 256, m9 (m3 x) ^^^ m14 (m2 x) ^^^ m11 x ^^^ m13 x = x := by decide

set_option maxRecDepth 10000 in
set_option maxHeartbeats 1000000 in
theorem mc12 : ∀ x < 256, m9 x ^^^ m14 (m3 x) ^^^ m11 (m2 x) ^^^ m13 x = 0 := by decide

set_option maxRecDepth 10000 in
set_option maxHeartbeats 1000000 in
theorem mc13 : ∀ x < 256, m9 x ^^^ m14 x ^^^ m11 (m3 x) ^^^ m13 (m2 x) = 0 := by decide

set_option maxRecDepth 10000 in
set_option maxHeartbeats 1000000 in
theorem mc20 : ∀ x < 256, m13 (m2 x) ^^^ m9 x ^^^ m14 x ^^^ m11 (m3 x) = 0 := by decide

set_option maxRecDepth 10000 in
set_option maxHeartbeats 1000000 in
theorem mc21 : ∀ x < 256, m13 (m3 x) ^^^ m9 (m2 x) ^^^ m14 x ^^^ m11 x = 0 := by decide

set_option maxRecDepth 10000 in
set_option maxHeartbeats 1000000 in
theorem mc22 : ∀ x < 256, m13 x ^^^ m9 (m3 x) ^^^ m14 (m2 x) ^^^ m11 x = x := by decide

set_option maxRecDepth 10000 in
set_option maxHeartbeats 1000000 in
theorem mc23 : ∀ x < 256, m13 x ^^^ m9 x ^^^ m14 (m3 x) ^^^ m11 (m2 x) = 0 := by decide

set_option maxRecDepth 10000 in
set_option maxHeartbeats 1000000 in
theorem mc30 : ∀ x < 256, m11 (m2 x) ^^^ m13 x ^^^ m9 x ^^^ m14 (m3 x) = 0 := by decide

set_option maxRecDepth 10000 in
set_option maxHeartbeats 1000000 in
theorem mc31 : ∀ x < 256, m11 (m3 x) ^^^ m13 (m2 x) ^^^ m9 x ^^^ m14 x = 0 := by decide

set_option maxRecDepth 10000 in
set_option maxHeartbeats 1000000 in
theorem mc32 : ∀ x < 256, m11 x ^^^ m13 (m3 x) ^^^ m9 (m2 x) ^^^ m14 x = 0 := by decide

set_option maxRecDepth 10000 in
set_option maxHeartbeats 1000000 in
theorem mc33 : ∀ x < 256, m11 x ^^^ m13 x ^^^ m9 (m3 x) ^^^ m14 (m2 x) = x := by decide

theorem invMixCol_mixCol (a b c d : Nat) (ha : a < 256) (hb : b < 256)
    (hc : c < 256) (hd : d < 256) :
    invMixCol (m2 a ^^^ m3 b ^^^ c ^^^ d) (a ^^^ m2 b ^^^ m3 c ^^^ d)
      (a ^^^ b ^^^ m2 c ^^^ m3 d) (m3 a ^^^ b ^^^ c ^^^ m2 d) = [a, b, c, d] := by
  have h2a : m2 a < 256 := m2_lt a ha
  have h3a : m3 a < 256 := m3_lt a ha
  have h2b : m2 b < 256 := m2_lt b hb
  have h3b : m3 b < 256 := m3_lt b hb
  have h2c : m2 c < 256 := m2_lt c hc
  have h3c : m3 c < 256 := m3_lt c hc
  have h2d : m2 d < 256 := m2_lt d hd
  have h3d : m3 d < 256 := m3_lt d hd
  have p01 : m2 a ^^^ m3 b < 256 := xor_lt_256 h2a h3b
  have p02 : m2 a ^^^ m3 b ^^^ c < 256 := xor_lt_256 p01 hc
  have p11 : a ^^^ m2 b < 256 := xor_lt_256 ha h2b
  have p12 : a ^^^ m2 b ^^^ m3 c < 256 := xor_lt_256 p11 h3c
  have p21 : a ^^^ b < 256 := xor_lt_256 ha hb
  have p22 : a ^^^ b ^^^ m2 c < 256 := xor_lt_256 p21 h2c
  have p31 : m3 a ^^^ b < 256 := xor_lt_256 h3a hb
  have p32 : m3 a ^^^ b ^^^ c < 256 := xor_lt_256 p31 hc
  simp only [invMixCol, List.cons.injEq, and_true]
  refine ⟨?_, ?_, ?_, ?_⟩
  · rw [m14_xor _ _ p02 hd, m14_xor _ _ p01 hc, m14_xor _ _ h2a h3b, m11_xor _ _ p12 hd, m11_xor _ _ p11 h3c, m11_xor _ _ ha h2b,
      m13_xor _ _ p22 h3d, m13_xor _ _ p21 h2c, m13_xor _ _ ha hb, m9_xor _ _ p32 h2d, m9_xor _ _ p31 hc, m9_xor _ _ h3a hb]
    rw [xor_regroup16, mc00 a ha, mc01 b hb, mc02 c hc, mc03 d hd]
    simp
  · rw [m9_xor _ _ p02 hd, m9_xor _ _ p01 hc, m9_xor _ _ h2a h3b, m14_xor _ _ p12 hd, m14_xor _ _ p11 h3c, m14_xor _ _ ha h2b,
      m11_xor _ _ p22 h3d, m11_xor _ _ p21 h2c, m11_xor _ _ ha hb, m13_xor _ _ p32 h2d, m13_xor _ _ p31 hc, m13_xor _ _ h3a hb]
    rw [xor_regroup16, mc10 a ha, mc11 b hb, mc12 c hc, mc13 d hd]
    simp
  · rw [m13_xor _ _ p02 hd, m13_xor _ _ p01 hc, m13_xor _ _ h2a h3b, m9_xor _ _ p12 hd, m9_xor _ _ p11 h3c, m9_xor _ _ ha h2b,
      m14_xor _ _ p22 h3d, m14_xor _ _ p21 h2c, m14_xor _ _ ha hb, m11_xor _ _ p32 h2d, m11_xor _ _ p31 hc, m11_xor _ _ h3a hb]
    rw [xor_regroup16, mc20 a ha, mc21 b hb, mc22 c hc, mc23 d hd]
    simp
  · rw [m11_xor _ _ p02 hd, m11_xor _ _ p01 hc, m11_xor _ _ h2a h3b, m13_xor _ _ p12 hd, m13_xor _ _ p11 h3c, m13_xor _ _ ha h2b,
      m9_xor _ _ p22 h3d, m9_xor _ _ p21 h2c, m9_xor _ _ ha hb, m14_xor _ _ p32 h2d, m14_xor _ _ p31 hc, m14_xor _ _ h3a hb]
    rw [xor_regroup16, mc30 a ha, mc31 b hb, mc32 c hc, mc33 d hd]
    simp


/-! #### AES round-step lemmas -/

theorem subBytes_length (s : List Nat) : (subBytes s).length = s.length := by
  simp [subBytes]

theorem invSubBytes_subBytes (s : List Nat) (h : ∀ x ∈ s, x < 256) :
    invSubBytes (subBytes s) = s := by
  simp only [subBytes, invSubBytes, List.map_map]
  have e : ∀ x ∈ s, (invSbox ∘ sbox) x = x := fun x hx => (sbox_spec x (h x hx)).1
  rw [List.map_congr_left e]
  simp

theorem subBytes_wf {s : List Nat} (h : Wf16 s) : Wf16 (subBytes s) := by
  refine ⟨by simp [subBytes, h.1], ?_⟩
  intro x hx
  simp only [subBytes, List.mem_map] at hx
  obtain ⟨y, hy, rfl⟩ := hx
  exact (sbox_spec y (h.2 y hy)).2

theorem shiftRows_length (s : List Nat) : (shiftRows s).length = 16 := rfl

theorem invShiftRows_shiftRows (s : List Nat) (h16 : s.length = 16) :
    invShiftRows (shiftRows s) = s := by
  obtain ⟨a0, a1, a2, a3, a4, a5, a6, a7, a8, a9, a10, a11, a12, a13, a14, a15, rfl⟩ := list_eq_16 s h16
  rfl

theorem shiftRows_wf (s : List Nat) (h : ∀ x ∈ s, x < 256) : Wf16 (shiftRows s) := by
  refine ⟨rfl, ?_⟩
  intro x hx
  simp only [shiftRows, List.mem_cons, List.not_mem_nil, or_false] at hx
  rcases hx with rfl|rfl|rfl|rfl|rfl|rfl|rfl|rfl|rfl|rfl|rfl|rfl|rfl|rfl|rfl|rfl <;>
    exact getD_lt_256 s _ h

theorem mixColumns_length {s : List Nat} (h16 : s.length = 16) :
    (mixColumns s).length = 16 := by
  obtain ⟨a0, a1, a2, a3, a4, a5, a6, a7, a8, a9, a10, a11, a12, a13, a14, a15, rfl⟩ := list_eq_16 s h16
  rfl

theorem mixColumns_wf {s : List Nat} (h : Wf16 s) : Wf16 (mixColumns s) := by
  obtain ⟨a0, a1, a2, a3, a4, a5, a6, a7, a8, a9, a10, a11, a12, a13, a14, a15, rfl⟩ := list_eq_16 s h.1
  have hb := h.2
  simp only [List.mem_cons, List.not_mem_nil, or_false, forall_eq_or_imp,
    forall_eq] at hb
  obtain ⟨h0, h1, h2, h3, h4, h5, h6, h7, h8, h9, h10, h11, h12, h13, h14, h15⟩ := hb
  refine ⟨rfl, ?_⟩
  intro x hx
  simp only [mixColumns, mixCol, List.cons_append, List.nil_append,
    List.mem_cons, List.not_mem_nil, or_false] at hx
  rcases hx with rfl|rfl|rfl|rfl|rfl|rfl|rfl|rfl|rfl|rfl|rfl|rfl|rfl|rfl|rfl|rfl <;>
    first
    | exact xor_lt_256 (xor_lt_256 (xor_lt_256 (m2_lt _ (by assumption))
          (m3_lt _ (by assumption))) (by assumption)) (by assumption)
    | exact xor_lt_256 (xor_lt_256 (xor_lt_256 (by assumption)
          (m2_lt _ (by assumption))) (m3_lt _ (by assumption))) (by assumption)
    | exact xor_lt_256 (xor_lt_256 (xor_lt_256 (by assumption)
          (by assumption)) (m2_lt _ (by assumption))) (m3_lt _ (by assumption))
    | exact xor_lt_256 (xor_lt_256 (xor_lt_256 (m3_lt _ (by assumption))
          (by assumption)) (by assumption)) (m2_lt _ (by assumption))

theorem invMixColumns_mixColumns (s : List Nat) (h16 : s.length = 16)
    (h : ∀ x ∈ s, x < 256) : invMixColumns (mixColumns s) = s := by
  obtain ⟨a0, a1, a2, a3, a4, a5, a6, a7, a8, a9, a10, a11, a12, a13, a14, a15, rfl⟩ := list_eq_16 s h16
  have hb := h
  simp only [List.mem_cons, List.not_mem_nil, or_false, forall_eq_or_imp,
    forall_eq] at hb
  obtain ⟨h0, h1, h2, h3, h4, h5, h6, h7, h8, h9, h10, h11, h12, h13, h14, h15⟩ := hb
  simp only [mixColumns, mixCol, List.cons_append, List.nil_append, invMixColumns]
  rw [invMixCol_mixCol a0 a1 a2 a3 h0 h1 h2 h3,
    invMixCol_mixCol a4 a5 a6 a7 h4 h5 h6 h7,
    invMixCol_mixCol a8 a9 a10 a11 h8 h9 h10 h11,
    invMixCol_mixCol a12 a13 a14 a15 h12 h13 h14 h15]
  rfl

/-! #### AES block inversion -/

theorem encRoundStep_wf {st k : List Nat} (hst : Wf16 st) (hk : Wf16 k) :
    Wf16 (encRoundStep st k) :=
  zipXor_wf (mixColumns_wf (shiftRows_wf _ (subBytes_wf hst).2)) hk

theorem foldl_encRoundStep_wf (middle : List (List Nat)) :
    ∀ st : List Nat, Wf16 st → (∀ k ∈ middle, Wf16 k) →
      Wf16 (middle.foldl encRoundStep st) := by
  induction middle with
  | nil => intro st hst _; exact hst
  | cons k ks ih =>
    intro st hst hm
    rw [List.foldl_cons]
    exact ih _ (encRoundStep_wf hst (hm k (by simp)))
      (fun k' h' => hm k' (by simp [h']))

theorem aesEncryptBlock_wf {k0 klast b : List Nat} (middle : List (List Nat))
    (hk0 : Wf16 k0) (hkl : Wf16 klast) (hb : Wf16 b)
    (hm : ∀ k ∈ middle, Wf16 k) : Wf16 (aesEncryptBlock k0 middle klast b) :=
  zipXor_wf (shiftRows_wf _
    (subBytes_wf (foldl_encRoundStep_wf middle _ (zipXor_wf hb hk0) hm)).2) hkl

/-- InvCipher undoes Cipher on well-formed state and keys. -/
theorem aesDecryptBlock_aesEncryptBlock (middle : List (List Nat)) :
    ∀ k0 klast b : List Nat, Wf16 k0 → Wf16 klast → Wf16 b →
      (∀ k ∈ middle, Wf16 k) →
      aesDecryptBlock k0 middle klast (aesEncryptBlock k0 middle klast b) = b := by
  induction middle with
  | nil =>
    intro k0 klast b hk0 hkl hb _
    simp only [aesEncryptBlock, aesDecryptBlock, List.reverse_nil, List.foldl_nil,
      encFinal, invFinal]
    rw [zipXor_cancel _ klast (by simp [shiftRows_length, hkl.1])]
    rw [invShiftRows_shiftRows _ (by
      simp [subBytes_length, zipXor_length, hb.1, hk0.1])]
    rw [invSubBytes_subBytes _ (zipXor_wf hb hk0).2]
    exact zipXor_cancel b k0 (by rw [hb.1, hk0.1])
  | cons k ks ih =>
    intro k0 klast b hk0 hkl hb hm
    have hkk : Wf16 k := hm k (by simp)
    have hks : ∀ k' ∈ ks, Wf16 k' := fun k' h' => hm k' (by simp [h'])
    have hsb : Wf16 (subBytes (zipXor b k0)) := subBytes_wf (zipXor_wf hb hk0)
    have hM : Wf16 (mixColumns (shiftRows (subBytes (zipXor b k0)))) :=
      mixColumns_wf (shiftRows_wf _ hsb.2)
    have henc : aesEncryptBlock k0 (k :: ks) klast b
        = aesEncryptBlock k ks klast
            (mixColumns (shiftRows (subBytes (zipXor b k0)))) := by
      simp only [aesEncryptBlock, List.foldl_cons]
      rfl
    rw [henc]
    have hdec := ih k klast (mixColumns (shiftRows (subBytes (zipXor b k0))))
      hkk hkl hM hks
    simp only [aesDecryptBlock, List.reverse_cons, List.foldl_append,
      List.foldl_cons, List.foldl_nil] at hdec ⊢
    have hstep : invRoundStep
        ((List.foldl invRoundStep
          (zipXor (aesEncryptBlock k ks klast
            (mixColumns (shiftRows (subBytes (zipXor b k0))))) klast) ks.reverse)) k
        = invMixColumns (mixColumns (shiftRows (subBytes (zipXor b k0)))) := by
      show invMixColumns (invFinal k _) = _
      rw [hdec]
    rw [hstep]
    rw [invMixColumns_mixColumns _ (shiftRows_length _) (shiftRows_wf _ hsb.2).2]
    show invFinal k0 (shiftRows (subBytes (zipXor b k0))) = b
    simp only [invFinal]
    rw [invShiftRows_shiftRows _ (by
      simp [subBytes_length, zipXor_length, hb.1, hk0.1])]
    rw [invSubBytes_subBytes _ (zipXor_wf hb hk0).2]
    exact zipXor_cancel b k0 (by rw [hb.1, hk0.1])

/-! #### CBC, padding, chunking and hex -/

set_option maxRecDepth 100000 in
set_option maxHeartbeats 4000000 in
theorem roundKeys_wf : Wf16 rk0 ∧ Wf16 rkLast ∧ Wf16 derivedIV
    ∧ ∀ k ∈ rkMid, Wf16 k := by decide

theorem cbcEncryptBlocks_nil (k0 : List Nat) (mid : List (List Nat))
    (kl iv : List Nat) : cbcEncryptBlocks k0 mid kl iv [] = [] := rfl

theorem cbcEncryptBlocks_cons (k0 : List Nat) (mid : List (List Nat))
    (kl iv b : List Nat) (rest : List (List Nat)) :
    cbcEncryptBlocks k0 mid kl iv (b :: rest)
      = aesEncryptBlock k0 mid kl (zipXor b iv)
        :: cbcEncryptBlocks k0 mid kl (aesEncryptBlock k0 mid kl (zipXor b iv)) rest := rfl

theorem cbcDecryptBlocks_nil (k0 : List Nat) (mid : List (List Nat))
    (kl iv : List Nat) : cbcDecryptBlocks k0 mid kl iv [] = [] := rfl

theorem cbcDecryptBlocks_cons (k0 : List Nat) (mid : List (List Nat))
    (kl iv c : List Nat) (rest : List (List Nat)) :
    cbcDecryptBlocks k0 mid kl iv (c :: rest)
      = zipXor (aesDecryptBlock k0 mid kl c) iv
        :: cbcDecryptBlocks k0 mid kl c rest := rfl

set_option maxRecDepth 100000 in
theorem cbcEncryptBlocks_wf (bs : List (List Nat)) :
    ∀ iv : List Nat, Wf16 iv → (∀ b ∈ bs, Wf16 b) →
      ∀ c ∈ cbcEncryptBlocks rk0 rkMid rkLast iv bs, Wf16 c := by
  induction bs with
  | nil =>
    intro iv _ _ c hc
    rw [cbcEncryptBlocks_nil] at hc
    exact absurd hc (by simp)
  | cons b rest ih =>
    intro iv hiv hbs c hc
    rw [cbcEncryptBlocks_cons, List.mem_cons] at hc
    have hcb : Wf16 (aesEncryptBlock rk0 rkMid rkLast (zipXor b iv)) :=
      aesEncryptBlock_wf rkMid roundKeys_wf.1 roundKeys_wf.2.1
        (zipXor_wf (hbs b (by simp)) hiv) roundKeys_wf.2.2.2
    rcases hc with rfl | hc
    · exact hcb
    · exact ih _ hcb (fun x hx => hbs x (by simp [hx])) c hc

/-- CBC decryption undoes CBC encryption blockwise. -/
theorem cbcDecryptBlocks_cbcEncryptBlocks (bs : List (List Nat)) :
    ∀ iv : List Nat, Wf16 iv → (∀ b ∈ bs, Wf16 b) →
      cbcDecryptBlocks rk0 rkMid rkLast iv
        (cbcEncryptBlocks rk0 rkMid rkLast iv bs) = bs := by
  induction bs with
  | nil => intro iv _ _; rfl
  | cons b rest ih =>
    intro iv hiv hbs
    have hb : Wf16 b := hbs b (by simp)
    rw [cbcEncryptBlocks_cons, cbcDecryptBlocks_cons]
    rw [aesDecryptBlock_aesEncryptBlock rkMid rk0 rkLast (zipXor b iv)
      roundKeys_wf.1 roundKeys_wf.2.1 (zipXor_wf hb hiv) roundKeys_wf.2.2.2]
    rw [zipXor_cancel b iv (by rw [hb.1, hiv.1])]
    have hcb : Wf16 (aesEncryptBlock rk0 rkMid rkLast (zipXor b iv)) :=
      aesEncryptBlock_wf rkMid roundKeys_wf.1 roundKeys_wf.2.1
        (zipXor_wf hb hiv) roundKeys_wf.2.2.2
    rw [ih _ hcb (fun x hx => hbs x (by simp [hx]))]

/-! #### Chunking, padding, hex and split lemmas -/

theorem toBlocks16_nil (fuel : Nat) : toBlocks16 fuel [] = [] := by
  cases fuel <;> rfl

theorem flatten_toBlocks16 (fuel : Nat) :
    ∀ l : List Nat, l.length ≤ fuel → (toBlocks16 fuel l).flatten = l := by
  induction fuel with
  | zero =>
    intro l hl
    rw [List.length_eq_zero.mp (Nat.le_zero.mp hl)]
    rfl
  | succ f ih =>
    intro l hl
    cases l with
    | nil => rfl
    | cons x xs =>
      show (toBlocks16 (f + 1) (x :: xs)).flatten = x :: xs
      rw [show toBlocks16 (f + 1) (x :: xs)
        = (x :: xs).take 16 :: toBlocks16 f ((x :: xs).drop 16) from rfl]
      rw [List.flatten_cons]
      rw [ih ((x :: xs).drop 16) (by simp at hl ⊢; omega)]
      exact List.take_append_drop 16 (x :: xs)

theorem toBlocks16_flatten (bs : List (List Nat)) :
    ∀ fuel : Nat, bs.length ≤ fuel → (∀ b ∈ bs, b.length = 16) →
      toBlocks16 fuel bs.flatten = bs := by
  induction bs with
  | nil => intro fuel _ _; rw [List.flatten_nil]; exact toBlocks16_nil fuel
  | cons b rest ih =>
    intro fuel hfuel hlen
    have hb : b.length = 16 := hlen b (by simp)
    cases fuel with
    | zero => simp at hfuel
    | succ f =>
      have hbne : (b ++ rest.flatten) ≠ [] := by
        intro hcon
        have := congrArg List.length hcon
        simp [hb] at this
      rw [List.flatten_cons]
      rw [show toBlocks16 (f + 1) (b ++ rest.flatten)
        = if (b ++ rest.flatten).isEmpty then []
          else (b ++ rest.flatten).take 16
            :: toBlocks16 f ((b ++ rest.flatten).drop 16) from rfl]
      rw [if_neg (by simpa [List.isEmpty_iff] using hbne)]
      rw [show (16 : Nat) = b.length from hb.symm, List.take_left, List.drop_left]
      rw [ih f (by simpa using hfuel) (fun x hx => hlen x (by simp [hx]))]

theorem flatten_blocks_length (bs : List (List Nat))
    (h : ∀ b ∈ bs, b.length = 16) : bs.flatten.length = 16 * bs.length := by
  induction bs with
  | nil => rfl
  | cons b rest ih =>
    rw [List.flatten_cons, List.length_append, h b (by simp),
      ih (fun x hx => h x (by simp [hx]))]
    simp [List.length_cons]
    ring

theorem toBlocks16_wf (fuel : Nat) :
    ∀ l : List Nat, l.length % 16 = 0 → l.length ≤ fuel → (∀ x ∈ l, x < 256) →
      ∀ blk ∈ toBlocks16 fuel l, Wf16 blk := by
  induction fuel with
  | zero =>
    intro l _ hl _ blk hblk
    rw [List.length_eq_zero.mp (Nat.le_zero.mp hl), toBlocks16_nil] at hblk
    exact absurd hblk (List.not_mem_nil blk)
  | succ f ih =>
    intro l hmod hle hlt blk hblk
    cases l with
    | nil =>
      rw [toBlocks16_nil] at hblk
      exact absurd hblk (List.not_mem_nil blk)
    | cons x xs =>
      rw [show toBlocks16 (f + 1) (x :: xs)
        = (x :: xs).take 16 :: toBlocks16 f ((x :: xs).drop 16) from rfl,
        List.mem_cons] at hblk
      have hlen16 : 16 ≤ (x :: xs).length := by
        have : (x :: xs).length ≠ 0 := by simp
        omega
      rcases hblk with rfl | hblk
      · refine ⟨by rw [List.length_take]; exact Nat.min_eq_left hlen16, ?_⟩
        intro y hy
        exact hlt y (List.mem_of_mem_take hy)
      · refine ih ((x :: xs).drop 16) (by rw [List.length_drop]; omega)
          (by rw [List.length_drop]; omega)
          (fun y hy => hlt y (List.mem_of_mem_drop hy)) blk hblk

theorem pad16_lt (l : List Nat) (h : ∀ x ∈ l, x < 256) :
    ∀ x ∈ pad16 l, x < 256 := by
  intro x hx
  rw [pad16, List.mem_append] at hx
  rcases hx with hx | hx
  · exact h x hx
  · have := (List.mem_replicate.mp hx).2
    omega

theorem pad16_mod (l : List Nat) : (pad16 l).length % 16 = 0 := by
  rw [pad16, List.length_append, List.length_replicate]
  omega

theorem getLast?_replicate_succ (k : Nat) (x : Nat) :
    (List.replicate (k + 1) x).getLast? = some x := by
  induction k with
  | zero => rfl
  | succ m ih =>
    rw [List.replicate_succ, List.replicate_succ, List.getLast?_cons_cons,
      ← List.replicate_succ]
    exact ih

theorem unpad16_pad16 (l : List Nat) : unpad16 (pad16 l) = some l := by
  have hn1 : 1 ≤ 16 - l.length % 16 := by omega
  have hn16 : 16 - l.length % 16 ≤ 16 := by omega
  obtain ⟨k, hk⟩ : ∃ k, 16 - l.length % 16 = k + 1 :=
    ⟨16 - l.length % 16 - 1, by omega⟩
  have hlast : (pad16 l).getLast? = some (16 - l.length % 16) := by
    rw [pad16, List.getLast?_append, hk, getLast?_replicate_succ]
    rfl
  rw [unpad16, hlast]
  have hlen : (pad16 l).length = l.length + (16 - l.length % 16) := by
    simp [pad16]
  show (if 16 - l.length % 16 = 0 ∨ 16 < 16 - l.length % 16
        ∨ (pad16 l).length < 16 - l.length % 16 then none
      else if ((pad16 l).drop ((pad16 l).length - (16 - l.length % 16))).all
          (fun b => b == 16 - l.length % 16) then
        some ((pad16 l).take ((pad16 l).length - (16 - l.length % 16)))
      else none) = some l
  rw [if_neg (by omega)]
  have hsub : (pad16 l).length - (16 - l.length % 16) = l.length := by omega
  rw [hsub]
  rw [pad16, List.drop_left, List.take_left]
  rw [if_pos (by
    rw [List.all_eq_true]
    intro b hb
    have := (List.mem_replicate.mp hb).2
    simp [this])]

/-! #### Hex and split lemmas -/

theorem hexVal_digit : ∀ d < 16, hexVal (hexDigitChars.getD d '0') = some d := by
  decide

theorem bytesToHex_cons (b : Nat) (rest : List Nat) :
    bytesToHex (b :: rest) = byteToHex b ++ bytesToHex rest := rfl

theorem hexToBytes_bytesToHex (l : List Nat) (h : ∀ b ∈ l, b < 256) :
    hexToBytes (bytesToHex l) = l := by
  induction l with
  | nil => rfl
  | cons b rest ih =>
    have hb : b < 256 := h b (by simp)
    rw [bytesToHex_cons]
    rw [show byteToHex b ++ bytesToHex rest
      = hexDigitChars.getD (b / 16) '0'
        :: hexDigitChars.getD (b % 16) '0' :: bytesToHex rest from rfl]
    rw [show hexToBytes (hexDigitChars.getD (b / 16) '0'
        :: hexDigitChars.getD (b % 16) '0' :: bytesToHex rest)
      = match hexVal (hexDigitChars.getD (b / 16) '0'),
          hexVal (hexDigitChars.getD (b % 16) '0') with
        | some hi, some lo => (16 * hi + lo) :: hexToBytes (bytesToHex rest)
        | _, _ => [] from rfl]
    rw [hexVal_digit (b / 16) (by omega), hexVal_digit (b % 16) (by omega)]
    show (16 * (b / 16) + b % 16) :: hexToBytes (bytesToHex rest) = b :: rest
    rw [ih (fun x hx => h x (by simp [hx]))]
    congr 1
    omega

theorem hexDigitChar_ne_colon (i : Nat) : hexDigitChars.getD i '0' ≠ ':' := by
  by_cases hi : i < 16
  · revert i
    decide
  · rw [List.getD_eq_default _ _ (by simp [hexDigitChars]; omega)]
    decide

theorem colon_not_mem_bytesToHex (l : List Nat) : ':' ∉ bytesToHex l := by
  induction l with
  | nil => simp [bytesToHex]
  | cons b rest ih =>
    rw [bytesToHex_cons]
    intro hmem
    rcases List.mem_append.mp hmem with hm | hm
    · rw [byteToHex] at hm
      simp only [List.mem_cons, List.not_mem_nil, or_false] at hm
      rcases hm with hm | hm <;> exact hexDigitChar_ne_colon _ hm.symm
    · exact ih hm

theorem splitOnChar_no_sep (sep : Char) (b : List Char) (h : sep ∉ b) :
    splitOnChar sep b = [b] := by
  induction b with
  | nil => rfl
  | cons c cs ih =>
    rw [splitOnChar]
    rw [if_neg (by intro hcon; exact h (by simp [hcon]))]
    rw [ih (fun hcon => h (by simp [hcon]))]

theorem splitOnChar_once (sep : Char) (a b : List Char)
    (ha : sep ∉ a) (hb : sep ∉ b) :
    splitOnChar sep (a ++ sep :: b) = [a, b] := by
  induction a with
  | nil =>
    rw [List.nil_append, splitOnChar, if_pos rfl, splitOnChar_no_sep sep b hb]
  | cons x xs ih =>
    rw [List.cons_append, splitOnChar]
    rw [if_neg (by intro hcon; exact ha (by simp [hcon]))]
    rw [ih (fun hcon => ha (by simp [hcon]))]

/-- C8: decryptData ∘ encryptData is the identity on (non-empty) plaintexts:
the hex/`:`/hex framing splits back into exactly two parts, the ciphertext
hex decodes to the CBC blocks, CBC decryption with the same derived key/IV
undoes CBC encryption, and PKCS7 unpadding removes the padding. -/
theorem decryptData_encryptData (iv text : List Nat)
    (hiv : ∀ b ∈ iv, b < 256) (htext : text ≠ [])
    (hbytes : ∀ b ∈ text, b < 256) :
    decryptData (encryptData iv text) = some text := by
  clear hiv htext
  have hpadlt := pad16_lt text hbytes
  have hpadmod := pad16_mod text
  have hblockswf : ∀ blk ∈ toBlocks16 (pad16 text).length (pad16 text), Wf16 blk :=
    toBlocks16_wf _ _ hpadmod (le_refl _) hpadlt
  have hctwf : ∀ c ∈ cbcEncryptBlocks rk0 rkMid rkLast derivedIV
      (toBlocks16 (pad16 text).length (pad16 text)), Wf16 c :=
    cbcEncryptBlocks_wf _ _ roundKeys_wf.2.2.1 hblockswf
  have hctbytes : ∀ b ∈ (cbcEncryptBlocks rk0 rkMid rkLast derivedIV
      (toBlocks16 (pad16 text).length (pad16 text))).flatten, b < 256 := by
    intro b hb
    obtain ⟨s, hs, hbs⟩ := List.mem_flatten.mp hb
    exact (hctwf s hs).2 b hbs
  have hctlens : ∀ b ∈ cbcEncryptBlocks rk0 rkMid rkLast derivedIV
      (toBlocks16 (pad16 text).length (pad16 text)), b.length = 16 :=
    fun b hb => (hctwf b hb).1
  have hctlen := flatten_blocks_length _ hctlens
  have hsplit := splitOnChar_once ':' (bytesToHex iv)
    (bytesToHex ((cbcEncryptBlocks rk0 rkMid rkLast derivedIV
      (toBlocks16 (pad16 text).length (pad16 text))).flatten))
    (colon_not_mem_bytesToHex iv) (colon_not_mem_bytesToHex _)
  rw [encryptData, decryptData]
  simp only [hsplit, List.length_cons, List.length_nil, List.getD_cons_succ,
    List.getD_cons_zero]
  rw [if_neg (by omega)]
  rw [hexToBytes_bytesToHex _ hctbytes]
  rw [if_pos (by rw [hctlen]; omega)]
  rw [hctlen, toBlocks16_flatten _ _ (by omega) hctlens]
  rw [cbcDecryptBlocks_cbcEncryptBlocks _ _ roundKeys_wf.2.2.1 hblockswf]
  rw [flatten_toBlocks16 _ _ (le_refl _)]
  exact unpad16_pad16 text

/-- C8 witness: a concrete 2-byte plaintext round-trips through
encryptData/decryptData. -/
theorem decryptData_encryptData_witness :
    (∀ b ∈ List.replicate 16 0, b < 256) ∧ ([104, 105] : List Nat) ≠ []
    ∧ decryptData (encryptData (List.replicate 16 0) [104, 105])
        = some [104, 105] :=
  ⟨by decide, by decide,
    decryptData_encryptData (List.replicate 16 0) [104, 105]
      (by decide) (by decide) (by decide)⟩

end AutoTrader
